import Mathlib

/-!
# go-whisper: the retrieval engine of `client.go`

A shallow embedding of the dedup cache, the response decoder and the poll loop of
`client.go`, and the properties of the specification that were checked against them.

Conventions of the embedding.

* A Go `string` is a sequence of bytes (`GoString`).
* Go's `int` is taken at 64 bits (`intBits`); `int64` arithmetic wraps (`wrapInt64`).
* The map `hashes` of `WhisperReader` is a function from keys to optional values, so
  that no iteration order is fixed by the model.
* The clock and the server are the environment of a call: every reading of
  `time.Now().Unix()` and every HTTP reply is supplied by the caller of the model,
  indexed by the program point that asks for it.
* A Go function that returns `(value, error)` returns a pair of options here; a
  run-time panic is the separate outcome `Run.crash`.
-/

namespace Whisper

/-! ## Strings and machine integers -/

/-- A Go `string`: an immutable sequence of bytes. -/
abbrev GoString := List UInt8

/-- The bytes (UTF-8) of a string constant. -/
def lit (s : String) : GoString := s.toUTF8.data.toList

/-- Two's complement wrap-around of an exact integer to `bits` bits. -/
def wrapBits (bits : Nat) (x : Int) : Int :=
  (x + 2 ^ (bits - 1)) % 2 ^ bits - 2 ^ (bits - 1)

/-- Width of Go's `int` (a 64-bit platform). -/
def intBits : Nat := 64

/-- Result of an `int` operation whose exact value is `x`. -/
def wrapInt (x : Int) : Int := wrapBits intBits x

/-- Result of an `int64` operation whose exact value is `x`. -/
def wrapInt64 (x : Int) : Int := wrapBits 64 x

/-- The values of Go's `int`. -/
def inInt (x : Int) : Prop := -(2 : Int) ^ (intBits - 1) ≤ x ∧ x < (2 : Int) ^ (intBits - 1)

/-- The values of Go's `int64`. -/
def inInt64 (x : Int) : Prop := -(2 : Int) ^ 63 ≤ x ∧ x < (2 : Int) ^ 63

instance (x : Int) : Decidable (inInt x) := by unfold inInt; infer_instance

instance (x : Int) : Decidable (inInt64 x) := by unfold inInt64; infer_instance

/-! ## Result (client.go 48-55) -/

/-- The struct `Result`; `Payload` holds the decoded bytes. -/
structure Result where
  Hash : GoString
  Ttl : Int
  Sent : Int
  From : GoString
  To : GoString
  Payload : GoString
deriving DecidableEq, Repr

/-! ## Dedup cache (client.go 279-318) -/

/-- The map `hashes := make(map[string]int64, 0)` of `WhisperReader`. -/
abbrev Hashes := GoString → Option Int

/-- The empty map. -/
def emptyHashes : Hashes := fun _ => none

/-- Map assignment `m[k] = v`. -/
def mapSet (m : Hashes) (k : GoString) (v : Int) : Hashes :=
  fun q => if q = k then some v else m q

/-- The value `sent + int64(ttl*2)` computed by `addHash`: the product is an `int`
operation, the conversion keeps its value, the sum is an `int64` operation. -/
def expiration (sent ttl : Int) : Int := wrapInt64 (sent + wrapInt (ttl * 2))

/-- The closure `addHash` (client.go 281-284). -/
def addHash (hashes : Hashes) (hash : GoString) (sent ttl : Int) : Hashes :=
  mapSet hashes hash (expiration sent ttl)

/-- The closure `filterKnownHashFn` (client.go 287-299): `true` when some key of
`hashes` equals `r.Hash`; otherwise the hash is added and the answer is `false`.
The second component is the map after the call. -/
def filterKnownHashFn (hashes : Hashes) (r : Result) : Bool × Hashes :=
  if (hashes r.Hash).isSome then (true, hashes)
  else (false, addHash hashes r.Hash r.Sent r.Ttl)

/-- A `ResultFilter` that may read and update captured state of type `σ`. -/
abbrev ResultFilter (σ : Type) := σ → Result → Bool × σ

/-- The inner loop of `filterIf` (client.go 240-245): the filters are called in order
until one answers `true`. -/
def excludedBy {σ : Type} : List (ResultFilter σ) → σ → Result → Bool × σ
  | [], s, _ => (false, s)
  | fn :: rest, s, r =>
    match fn s r with
    | (true, s1) => (true, s1)
    | (false, s1) => excludedBy rest s1 r

/-- The outer loop of `filterIf` (client.go 239-249), from the accumulator
`retained`. -/
def filterIfLoop {σ : Type} (filterFn : List (ResultFilter σ)) :
    List Result → List Result → σ → List Result × σ
  | [], retained, s => (retained, s)
  | r :: rest, retained, s =>
    match excludedBy filterFn s r with
    | (true, s1) => filterIfLoop filterFn rest retained s1
    | (false, s1) => filterIfLoop filterFn rest (retained ++ [r]) s1

/-- The function `filterIf` (client.go 234-252). -/
def filterIf {σ : Type} (results : List Result) (filterFn : List (ResultFilter σ))
    (s : σ) : List Result × σ :=
  filterIfLoop filterFn results [] s

/-- The loop that purges expired hashes (client.go 306-310). Every entry is visited
once; `now hash` is the reading of `time.Now().Unix()` made when the entry of key
`hash` is visited. -/
def purgeExpired (now : GoString → Int) (hashes : Hashes) : Hashes :=
  fun hash =>
    match hashes hash with
    | some exp => if now hash > exp then none else some exp
    | none => none

/-- The closure `purge` (client.go 304-318): purge the expired hashes, then filter the
batch with `filterKnownHashFn`. -/
def purge (now : GoString → Int) (hashes : Hashes) (results : List Result) :
    List Result × Hashes :=
  filterIf results [filterKnownHashFn] (purgeExpired now hashes)

/-- The closure `purge` when every clock reading of the pass is `now`. -/
def purgeAt (now : Int) (hashes : Hashes) (results : List Result) :
    List Result × Hashes :=
  purge (fun _ => now) hashes results

/-! ## Errors and outcomes -/

/-- The error values that the code of `client.go` can return, one per origin. -/
inductive Error where
  /-- `json.Unmarshal`: the input is not a JSON text. -/
  | jsonInvalid
  /-- `json.Unmarshal`: a JSON value does not fit the Go type it is stored in. -/
  | jsonType
  /-- `hex.DecodeString`: odd length or a byte that is no hex digit. -/
  | hexDecode
  /-- `json.Marshal`: a parameter has a type that JSON cannot encode. -/
  | marshal
  /-- `toHex`: "Unable to convert arg of type ... to hex". -/
  | toHexType
  /-- `WhisperSend`: "Unable to make RPC calls of ethereum instance". -/
  | rpcUnreachable
  /-- `WhisperSend`: "RPC call to ethereum instance returned non-OK status". -/
  | rpcStatus
  /-- `WhisperSend`: reading the response body failed. -/
  | bodyRead
  /-- `WhisperSend`: "Error deserializing response from whisper client". -/
  | deserialize
  /-- `newFilter` and `read`: "Unexpected msg type". -/
  | unexpectedMsgType
deriving DecidableEq, Repr

/-- Outcome of running Go code: it returns a value, or it panics. -/
inductive Run (α : Type) where
  | ret (a : α)
  | crash
deriving DecidableEq, Repr

/-! ## JSON texts and `encoding/json`

The standard library is not part of the repository; the definitions of this section
follow its documented behaviour for the Go types that `client.go` decodes into. -/

/-- A parsed JSON text. `num` is a number literal without fraction and exponent,
`real` any other number literal, of value `mantissa × 10 ^ exp10`; the keys of an
object are kept in input order, duplicates included. -/
inductive JSON where
  | null
  | bool (b : Bool)
  | num (n : Int)
  | real (mantissa : Int) (exp10 : Int)
  | str (s : GoString)
  | arr (elems : List JSON)
  | obj (members : List (GoString × JSON))

/-- Case folding of one ASCII byte. -/
def foldByte (c : UInt8) : UInt8 := if 0x61 ≤ c ∧ c ≤ 0x7A then c - 0x20 else c

/-- Case folding of an object key as `encoding/json` does it: ASCII letters to upper
case, U+017F (bytes C5 BF) to `S`, U+212A (bytes E2 84 AA) to `K`. No other rune
folds to an ASCII letter, so the other bytes are kept. -/
def foldName : GoString → GoString
  | c :: d :: e :: rest =>
    if c = 0xE2 ∧ d = 0x84 ∧ e = 0xAA then 0x4B :: foldName rest
    else if c = 0xC5 ∧ d = 0xBF then 0x53 :: foldName (e :: rest)
    else foldByte c :: foldName (d :: e :: rest)
  | [c, d] => if c = 0xC5 ∧ d = 0xBF then [0x53] else [foldByte c, foldByte d]
  | [c] => [foldByte c]
  | [] => []

/-- An object key selects the struct field tagged `field` when it equals the tag or
is equal to it under case folding. -/
def matchesField (field key : GoString) : Bool :=
  key == field || foldName key == foldName field

/-- Storing a JSON value in a `string`: `none` is an `UnmarshalTypeError`; `null`
leaves the old value. -/
def storeString (old : GoString) : JSON → Option GoString
  | .str s => some s
  | .null => some old
  | _ => none

/-- Storing a JSON value in a `bool`. -/
def storeBool (old : Bool) : JSON → Option Bool
  | .bool b => some b
  | .null => some old
  | _ => none

/-- Storing a JSON value in a signed integer of `bits` bits: the literal must be an
integer literal in range. -/
def storeInt (bits : Nat) (old : Int) : JSON → Option Int
  | .num n =>
    if -(2 : Int) ^ (bits - 1) ≤ n ∧ n < (2 : Int) ^ (bits - 1) then some n else none
  | .null => some old
  | _ => none

/-- Effect of one object member on the struct being decoded. -/
inductive Store (α : Type) where
  /-- The value was stored, or the key or a `null` was skipped. -/
  | set (a : α)
  /-- An `UnmarshalTypeError` was saved; decoding goes on. -/
  | mismatch (a : α)
  /-- An `UnmarshalJSON` method returned an error; decoding stops. -/
  | fail (e : Error)
  /-- An `UnmarshalJSON` method panicked. -/
  | crash

/-- Decoding the members of an object into a struct, in input order. `saved` tells
whether a type error was saved; it is returned when the object ends. -/
def decodeMembers {α : Type} (store : α → GoString → JSON → Store α) :
    List (GoString × JSON) → α → Bool → Run (α × Option Error)
  | [], a, saved => .ret (a, if saved then some Error.jsonType else none)
  | (k, v) :: rest, a, saved =>
    match store a k v with
    | .set a1 => decodeMembers store rest a1 saved
    | .mismatch a1 => decodeMembers store rest a1 true
    | .fail e => .ret (a, some e)
    | .crash => .crash

/-- The call `json.Unmarshal(content, &x)` for a struct variable `x` with zero value
`zero`; `none` is a body that is not a JSON text. -/
def unmarshalStruct {α : Type} (store : α → GoString → JSON → Store α) (zero : α) :
    Option JSON → Run (α × Option Error)
  | none => .ret (zero, some Error.jsonInvalid)
  | some .null => .ret (zero, none)
  | some (.obj members) => decodeMembers store members zero false
  | some _ => .ret (zero, some Error.jsonType)

/-! ## `encoding/hex` -/

/-- Value of a hex digit, `none` for any other byte. -/
def fromHexChar (c : UInt8) : Option UInt8 :=
  if 0x30 ≤ c ∧ c ≤ 0x39 then some (c - 0x30)
  else if 0x61 ≤ c ∧ c ≤ 0x66 then some (c - 0x61 + 10)
  else if 0x41 ≤ c ∧ c ≤ 0x46 then some (c - 0x41 + 10)
  else none

/-- The function `hex.DecodeString`; `none` is an error (`ErrLength` or
`InvalidByteError`). -/
def hexDecodeString : GoString → Option GoString
  | [] => some []
  | [_] => none
  | p :: q :: rest =>
    match fromHexChar p, fromHexChar q with
    | some a, some b =>
      match hexDecodeString rest with
      | some tail => some ((a <<< 4 ||| b) :: tail)
      | none => none
    | _, _ => none

/-! ## Decoding a Result (client.go 61-84) -/

/-- The local type `TResult` of `UnmarshalJSON`: the fields of `Result` without its
methods; `Payload` holds the hex text of the wire. -/
abbrev TResult := Result

/-- Effect of one object member on a `TResult`, by the `json` tags of `Result`. -/
def storeTResult (t : TResult) (key : GoString) (v : JSON) : Store TResult :=
  if matchesField (lit "hash") key then
    match storeString t.Hash v with
    | some s => .set { t with Hash := s }
    | none => .mismatch t
  else if matchesField (lit "ttl") key then
    match storeInt intBits t.Ttl v with
    | some n => .set { t with Ttl := n }
    | none => .mismatch t
  else if matchesField (lit "sent") key then
    match storeInt 64 t.Sent v with
    | some n => .set { t with Sent := n }
    | none => .mismatch t
  else if matchesField (lit "from") key then
    match storeString t.From v with
    | some s => .set { t with From := s }
    | none => .mismatch t
  else if matchesField (lit "to") key then
    match storeString t.To v with
    | some s => .set { t with To := s }
    | none => .mismatch t
  else if matchesField (lit "payload") key then
    match storeString t.Payload v with
    | some s => .set { t with Payload := s }
    | none => .mismatch t
  else .set t

/-- The call `json.Unmarshal(data, &t)` of `UnmarshalJSON`, with `var t *TResult`:
`null` leaves `t` nil, any other value allocates it. -/
def unmarshalTResult (data : JSON) : Run (Option TResult × Option Error) :=
  match data with
  | .null => .ret (none, none)
  | .obj members =>
    match decodeMembers storeTResult members ⟨[], 0, 0, [], [], []⟩ false with
    | .ret (t, err) => .ret (some t, err)
    | .crash => .crash
  | _ => .ret (some ⟨[], 0, 0, [], [], []⟩, some Error.jsonType)

/-- The method `(*Result).UnmarshalJSON` (client.go 61-84) on the JSON value `data`
that the decoder hands to it (never nil). It returns the error, or the fields it
sets on the receiver. `t.Payload[2:]` panics when `t` is nil or the payload has
fewer than two bytes. -/
def Result.UnmarshalJSON (data : JSON) : Run (Except Error Result) :=
  match unmarshalTResult data with
  | .crash => .crash
  | .ret (_, some err) => .ret (.error err)
  | .ret (none, none) => .crash
  | .ret (some t, none) =>
    if t.Payload.length < 2 then .crash
    else
      match hexDecodeString (t.Payload.drop 2) with
      | none => .ret (.error Error.hexDecode)
      | some bPayload =>
        .ret (.ok ⟨t.Hash, t.Ttl, t.Sent, t.From, t.To, bPayload⟩)

/-- Decoding a JSON array into `[]Result`: `UnmarshalJSON` is called on every
element in order; its first error ends the decoding. -/
def decodeResults : List JSON → Run (Except Error (List Result))
  | [] => .ret (.ok [])
  | v :: rest =>
    match Result.UnmarshalJSON v with
    | .crash => .crash
    | .ret (.error e) => .ret (.error e)
    | .ret (.ok r) =>
      match decodeResults rest with
      | .crash => .crash
      | .ret (.error e) => .ret (.error e)
      | .ret (.ok rs) => .ret (.ok (r :: rs))

/-! ## Response messages (client.go 28-32, 86-102) -/

/-- The struct `WhisperRPCMsg`; the field `Result` is an `interface{}`, nil when
`none`. -/
structure WhisperRPCMsg where
  JsonRPC : GoString
  Id : GoString
  Result : Option JSON

/-- The struct `WhisperRPCIncomingMsgMulti`; `base` is the embedded pointer. -/
structure WhisperRPCIncomingMsgMulti where
  base : Option WhisperRPCMsg
  Result : List Result

/-- The struct `WhisperRPCIncomingMsgSingleBool`. -/
structure WhisperRPCIncomingMsgSingleBool where
  base : Option WhisperRPCMsg
  Result : Bool

/-- The struct `WhisperRPCIncomingMsgSingleStr`. -/
structure WhisperRPCIncomingMsgSingleStr where
  base : Option WhisperRPCMsg
  Result : GoString

/-- A non-nil value of the interface `WhisperRPCIncomingMsg` as `WhisperSend` builds
it: its dynamic type is one of the four structs. -/
inductive WhisperRPCIncomingMsg where
  | multi (m : WhisperRPCIncomingMsgMulti)
  | singleBool (m : WhisperRPCIncomingMsgSingleBool)
  | singleStr (m : WhisperRPCIncomingMsgSingleStr)
  | generic (m : WhisperRPCMsg)

/-- Effect of a member on the promoted fields `jsonrpc` and `id` of the embedded
`*WhisperRPCMsg`, which is allocated when one of them is addressed; `none` when the
key is neither. The promoted `result` is hidden by the field of the outer struct. -/
def storeBase (base : Option WhisperRPCMsg) (key : GoString) (v : JSON) :
    Option (Store (Option WhisperRPCMsg)) :=
  let m := base.getD ⟨[], [], none⟩
  if matchesField (lit "jsonrpc") key then
    match storeString m.JsonRPC v with
    | some s => some (.set (some { m with JsonRPC := s }))
    | none => some (.mismatch (some m))
  else if matchesField (lit "id") key then
    match storeString m.Id v with
    | some s => some (.set (some { m with Id := s }))
    | none => some (.mismatch (some m))
  else none

/-- Effect of one object member on a `WhisperRPCIncomingMsgMulti`. -/
def storeMulti (x : WhisperRPCIncomingMsgMulti) (key : GoString) (v : JSON) :
    Store WhisperRPCIncomingMsgMulti :=
  if matchesField (lit "result") key then
    match v with
    | .arr elems =>
      match decodeResults elems with
      | .crash => .crash
      | .ret (.error e) => .fail e
      | .ret (.ok rs) => .set { x with Result := rs }
    | .null => .set { x with Result := [] }
    | _ => .mismatch x
  else
    match storeBase x.base key v with
    | some (.set b) => .set { x with base := b }
    | some (.mismatch b) => .mismatch { x with base := b }
    | some (.fail e) => .fail e
    | some .crash => .crash
    | none => .set x

/-- Effect of one object member on a `WhisperRPCIncomingMsgSingleBool`. -/
def storeSingleBool (x : WhisperRPCIncomingMsgSingleBool) (key : GoString) (v : JSON) :
    Store WhisperRPCIncomingMsgSingleBool :=
  if matchesField (lit "result") key then
    match storeBool x.Result v with
    | some b => .set { x with Result := b }
    | none => .mismatch x
  else
    match storeBase x.base key v with
    | some (.set b) => .set { x with base := b }
    | some (.mismatch b) => .mismatch { x with base := b }
    | some (.fail e) => .fail e
    | some .crash => .crash
    | none => .set x

/-- Effect of one object member on a `WhisperRPCIncomingMsgSingleStr`. -/
def storeSingleStr (x : WhisperRPCIncomingMsgSingleStr) (key : GoString) (v : JSON) :
    Store WhisperRPCIncomingMsgSingleStr :=
  if matchesField (lit "result") key then
    match storeString x.Result v with
    | some s => .set { x with Result := s }
    | none => .mismatch x
  else
    match storeBase x.base key v with
    | some (.set b) => .set { x with base := b }
    | some (.mismatch b) => .mismatch { x with base := b }
    | some (.fail e) => .fail e
    | some .crash => .crash
    | none => .set x

/-- The least magnitude that `strconv.ParseFloat(s, 64)` rejects as out of range:
the largest `float64` plus half a unit in the last place, `2 ^ 1024 - 2 ^ 970`
(about 1.797e308), written out in decimal. -/
def float64Limit : Nat :=
  179769313486231580793728971405303415079934132710037826936173778980444968292764750946649017977587207096330286416692887910946555547851940402630657488671505820681908902000708383676273854845817711531764475730270069855571366959622842914819860834936475292719074168444365510704342711559699508093042880177904174497792

/-- Whether the number literal of value `mantissa × 10 ^ exp10` converts to a
`float64` (`ParseFloat` gives no range error). -/
def fitsFloat64 (mantissa : Int) (exp10 : Int) : Bool :=
  if 0 ≤ exp10 then mantissa.natAbs * 10 ^ exp10.toNat < float64Limit
  else mantissa.natAbs < float64Limit * 10 ^ (-exp10).toNat

mutual
/-- Whether a JSON value decodes into an `interface{}` without error: every number
literal in it, at any depth, must convert to a `float64`. -/
def numbersFit : JSON → Bool
  | .num n => fitsFloat64 n 0
  | .real mantissa exp10 => fitsFloat64 mantissa exp10
  | .arr elems => numbersFitList elems
  | .obj members => numbersFitMembers members
  | _ => true
/-- Whether every element of an array decodes into an `interface{}` without error. -/
def numbersFitList : List JSON → Bool
  | [] => true
  | v :: rest => numbersFit v && numbersFitList rest
/-- Whether every member of an object decodes into an `interface{}` without error. -/
def numbersFitMembers : List (GoString × JSON) → Bool
  | [] => true
  | (_, v) :: rest => numbersFit v && numbersFitMembers rest
end

/-- Effect of one object member on a `WhisperRPCMsg`: a JSON value fits the
`interface{}` field unless a number literal in it is out of the range of `float64`,
which is a saved `UnmarshalTypeError`; `null` makes the field nil. The value left in
the field after the error is not kept: the message is dropped with the error. -/
def storeGeneric (x : WhisperRPCMsg) (key : GoString) (v : JSON) : Store WhisperRPCMsg :=
  if matchesField (lit "jsonrpc") key then
    match storeString x.JsonRPC v with
    | some s => .set { x with JsonRPC := s }
    | none => .mismatch x
  else if matchesField (lit "id") key then
    match storeString x.Id v with
    | some s => .set { x with Id := s }
    | none => .mismatch x
  else if matchesField (lit "result") key then
    match v with
    | .null => .set { x with Result := none }
    | w => if numbersFit w then .set { x with Result := some w } else .mismatch x
  else .set x

/-- The call `json.Unmarshal(content, &multi)`. -/
def unmarshalMulti (content : Option JSON) : Run (WhisperRPCIncomingMsgMulti × Option Error) :=
  unmarshalStruct storeMulti ⟨none, []⟩ content

/-- The call `json.Unmarshal(content, &sBool)`. -/
def unmarshalSingleBool (content : Option JSON) :
    Run (WhisperRPCIncomingMsgSingleBool × Option Error) :=
  unmarshalStruct storeSingleBool ⟨none, false⟩ content

/-- The call `json.Unmarshal(content, &sStr)`. -/
def unmarshalSingleStr (content : Option JSON) :
    Run (WhisperRPCIncomingMsgSingleStr × Option Error) :=
  unmarshalStruct storeSingleStr ⟨none, []⟩ content

/-- The call `json.Unmarshal(content, &failsafe)`. -/
def unmarshalGeneric (content : Option JSON) : Run (WhisperRPCMsg × Option Error) :=
  unmarshalStruct storeGeneric ⟨[], [], none⟩ content

/-! ## Call parameters (client.go 104-204) -/

/-- The constants of type `Method` (client.go 20-26). -/
inductive Method where
  | CHECK_IDENTITY
  | NEW_IDENTITY
  | POST
  | NEW_FILTER
  | GET_MSGS
deriving DecidableEq, Repr

/-- A value of type `interface{}` as the parameter functions see it, by dynamic type:
nil, `int`, `string`, `[]string`, `[][]string`, `[]interface{}`,
`map[string]interface{}` (its entries), or a value of any other type, with whether
`json.Marshal` can encode it. -/
inductive Value where
  | nil
  | int (n : Int)
  | str (s : GoString)
  | strs (xs : List GoString)
  | strss (xss : List (List GoString))
  | list (xs : List Value)
  | dict (entries : List (GoString × Value))
  | other (marshals : Bool)

mutual
/-- Whether `json.Marshal` can encode the value. -/
def marshals : Value → Bool
  | .other b => b
  | .list xs => marshalsList xs
  | .dict entries => marshalsEntries entries
  | _ => true
/-- Whether `json.Marshal` can encode every value of the list. -/
def marshalsList : List Value → Bool
  | [] => true
  | v :: rest => marshals v && marshalsList rest
/-- Whether `json.Marshal` can encode every value of the map. -/
def marshalsEntries : List (GoString × Value) → Bool
  | [] => true
  | (_, v) :: rest => marshals v && marshalsEntries rest
end

/-- The function `WrapParam` (client.go 115-119). -/
def WrapParam (param : Value) : List Value := [] ++ [param]

/-- The type `transformVal` (client.go 121). -/
abbrev transformVal := Value → Value × Option Error

/-- The function `transNoop` (client.go 123-125). -/
def transNoop (val : Value) : Value × Option Error := (val, none)

/-- The lower-case hex digit of a value below 16. -/
def hexDigit (d : UInt8) : UInt8 := if d < 10 then 0x30 + d else 0x61 + (d - 10)

/-- Two lower-case hex digits for every byte. -/
def hexBytes : GoString → GoString
  | [] => []
  | b :: rest => hexDigit (b >>> 4) :: hexDigit (b &&& 0x0f) :: hexBytes rest

/-- The text `fmt.Sprintf("%#x", []byte(s))`: nothing for an empty slice, else `0x`
and the hex digits of the bytes. -/
def sprintfHexBytes (s : GoString) : GoString :=
  if s = [] then [] else lit "0x" ++ hexBytes s

/-- The text `fmt.Sprintf("%#x", n)` of an `int`. -/
def sprintfHexInt (n : Int) : GoString :=
  if n < 0 then lit "-0x" ++ (Nat.toDigits 16 n.natAbs).map (fun c => UInt8.ofNat c.toNat)
  else lit "0x" ++ (Nat.toDigits 16 n.toNat).map (fun c => UInt8.ofNat c.toNat)

/-- The function `toHex` (client.go 128-153). The inner call on a `string` of the
`[][]string` case cannot fail. -/
def toHex (val : Value) : Value × Option Error :=
  match val with
  | .int n => (.str (sprintfHexInt n), none)
  | .str s => (.str (sprintfHexBytes s), none)
  | .strss vals => (.strss (vals.map (fun vi => vi.map sprintfHexBytes)), none)
  | _ => (.str [], some Error.toHexType)

/-- The loop of `SingleMsgParam` over a `[]string` (client.go 174-180). -/
def singleMsgParamLoop (transFn : transformVal) :
    List GoString → List Value → Value × Option Error
  | [], enclosing => (.list enclosing, none)
  | param :: rest, enclosing =>
    match transFn (.str param) with
    | (_, some err) => (.nil, some err)
    | (hexed, none) => singleMsgParamLoop transFn rest (enclosing ++ [hexed])

/-- The function `SingleMsgParam` (client.go 168-190). -/
def SingleMsgParam (param : Value) (transFn : transformVal) : Value × Option Error :=
  match param with
  | .strs xs => singleMsgParamLoop transFn xs []
  | _ =>
    match transFn param with
    | (_, some err) => (.nil, some err)
    | (hexed, none) => (hexed, none)

/-- Map assignment `encoded[k] = trans` on the entries of a map (`hexed` is the
value `trans` of the source). -/
def dictSet (encoded : List (GoString × Value)) (k : GoString) (hexed : Value) :
    List (GoString × Value) :=
  encoded.filter (fun e => e.1 ≠ k) ++ [(k, hexed)]

/-- The loop of `MapMsgParams` (client.go 195-201), in the order of the entries. -/
def mapMsgParamsLoop (transFn : transformVal) :
    List (GoString × Value) → List (GoString × Value) → List Value × Option Error
  | [], encoded => (WrapParam (.dict encoded), none)
  | (k, v) :: rest, encoded =>
    match SingleMsgParam v transFn with
    | (_, some err) => ([], some err)
    | (hexed, none) => mapMsgParamsLoop transFn rest (dictSet encoded k hexed)

/-- The function `MapMsgParams` (client.go 192-204); the nil slice is `[]`. -/
def MapMsgParams (params : List (GoString × Value)) (transFn : transformVal) :
    List Value × Option Error :=
  mapMsgParamsLoop transFn params []

/-! ## Transport (client.go 392-440) -/

/-- What `ioutil.ReadAll(response.Body)` gives: an error, or the body; `none` is a
body that is not a JSON text. -/
inductive BodyRead where
  | failed
  | content (text : Option JSON)

/-- What `client.Post` gives: an error, or a response with its status code. -/
inductive HttpReply where
  | postError
  | response (status : Int) (body : BodyRead)

/-- One HTTP exchange: the method and the parameters of the request. -/
structure Call where
  method : Method
  params : List Value

/-- The node behind `url`: its reply to a request, given the requests made before. -/
abbrev Server := List Call → Method → List Value → HttpReply

/-- The decoding cascade of `WhisperSend` (client.go 420-438). -/
def decodeContent (content : Option JSON) : Run (Option WhisperRPCIncomingMsg × Option Error) :=
  match unmarshalMulti content with
  | .crash => .crash
  | .ret (multi, none) => .ret (some (.multi multi), none)
  | .ret (_, some _) =>
    match unmarshalSingleBool content with
    | .crash => .crash
    | .ret (sBool, none) => .ret (some (.singleBool sBool), none)
    | .ret (_, some _) =>
      match unmarshalSingleStr content with
      | .crash => .crash
      | .ret (sStr, none) => .ret (some (.singleStr sStr), none)
      | .ret (_, some _) =>
        match unmarshalGeneric content with
        | .crash => .crash
        | .ret (failsafe, none) => .ret (some (.generic failsafe), none)
        | .ret (_, some _) => .ret (none, some Error.deserialize)

/-- The part of `WhisperSend` after `client.Post` (client.go 407-439). -/
def receive (reply : HttpReply) : Run (Option WhisperRPCIncomingMsg × Option Error) :=
  match reply with
  | .postError => .ret (none, some Error.rpcUnreachable)
  | .response status body =>
    if status ≠ 200 then .ret (none, some Error.rpcStatus)
    else
      match body with
      | .failed => .ret (none, some Error.bodyRead)
      | .content content => decodeContent content

/-- The function `WhisperSend` (client.go 392-440). `calls` are the exchanges made so
far; the second component adds the exchange of this call, if it gets to one. -/
def WhisperSend (server : Server) (calls : List Call) (method : Method)
    (params : List Value) :
    Run (Option WhisperRPCIncomingMsg × Option Error) × List Call :=
  if marshalsList params then
    (receive (server calls method params), calls ++ [⟨method, params⟩])
  else (.ret (none, some Error.marshal), calls)

/-! ## Filter creation and the poll loop (client.go 254-384) -/

/-- The function `newFilter` (client.go 254-272). -/
def newFilter (server : Server) (calls : List Call) (topics : Value) :
    Run (GoString × Option Error) × List Call :=
  match MapMsgParams [(lit "topics", topics)] toHex with
  | (_, some err) => (.ret ([], some err), calls)
  | (msg, none) =>
    match WhisperSend server calls Method.NEW_FILTER msg with
    | (.crash, calls1) => (.crash, calls1)
    | (.ret (_, some err), calls1) => (.ret ([], some err), calls1)
    | (.ret (some (.singleStr returned), none), calls1) => (.ret (returned.Result, none), calls1)
    | (.ret (_, none), calls1) => (.ret ([], some Error.unexpectedMsgType), calls1)

/-- The environment of one call of `read`: the clock reading taken for `start`, the
reading taken in the timeout guard of each iteration (counted from 0), the readings
taken by the dedup purge of each iteration, and the node. -/
structure Env where
  start : Int
  now : Nat → Int
  purgeNow : Nat → GoString → Int
  server : Server

/-- What `read` returns (`results` is nil when `none`), with the exchanges it made and
the state of the filter closure afterwards. -/
structure ReadReturn (σ : Type) where
  results : Option (List Result)
  err : Option Error
  calls : List Call
  state : σ

/-- The loop of `read` (client.go 348-383) from the top of iteration `k`, for at most
`fuel` iterations; `none` when the loop is still running after them. The closure
`filter` gets the iteration it is called in, and its captured state. -/
def readLoop {σ : Type} (env : Env) (topics : Value) (readTimeoutS : Int)
    (filter : Nat → σ → List Result → List Result × σ) :
    Nat → Nat → GoString → List Call → σ → Option (Run (ReadReturn σ))
  | 0, _, _, _, _ => none
  | fuel + 1, k, filterId, calls, s =>
    if readTimeoutS > -1 ∧ env.now k > wrapInt64 (env.start + readTimeoutS) then
      some (.ret ⟨some [], none, calls, s⟩)
    else
      match (if filterId = [] then newFilter env.server calls topics
             else (.ret (filterId, none), calls)) with
      | (.crash, _) => some .crash
      | (.ret (_, some err), calls1) => some (.ret ⟨none, some err, calls1, s⟩)
      | (.ret (fid, none), calls1) =>
        match WhisperSend env.server calls1 Method.GET_MSGS (WrapParam (.str fid)) with
        | (.crash, _) => some .crash
        | (.ret (_, some err), calls2) => some (.ret ⟨none, some err, calls2, s⟩)
        | (.ret (none, none), calls2) =>
          readLoop env topics readTimeoutS filter fuel (k + 1) [] calls2 s
        | (.ret (some (.multi returned), none), calls2) =>
          match filter k s returned.Result with
          | (filtered, s1) =>
            if filtered.length > 0 then some (.ret ⟨some filtered, none, calls2, s1⟩)
            else readLoop env topics readTimeoutS filter fuel (k + 1) fid calls2 s1
        | (.ret (some _, none), calls2) =>
          some (.ret ⟨none, some Error.unexpectedMsgType, calls2, s⟩)

/-- The function `read` (client.go 340-384). The poll interval only sets the length
of the sleep between iterations, whose effect is in the clock readings of `env`. -/
def read {σ : Type} (env : Env) (topics : Value) (_duration : Int) (readTimeoutS : Int)
    (filter : Nat → σ → List Result → List Result × σ) (fuel : Nat) (s : σ) :
    Option (Run (ReadReturn σ)) :=
  readLoop env topics readTimeoutS filter fuel 0 [] [] s

/-- What the closure of `WhisperReader` returns, with the exchanges it made and the
map `hashes` afterwards. -/
structure ReaderReturn where
  results : List Result
  err : Option Error
  calls : List Call
  hashes : Hashes

/-- One call of the closure returned by `WhisperReader` (client.go 302-327), with the
map `hashes` as it stands before the call. -/
def WhisperReader (env : Env) (topics : Value) (duration : Int) (readTimeoutS : Int)
    (fuel : Nat) (hashes : Hashes) : Option (Run ReaderReturn) :=
  match read env topics duration readTimeoutS
      (fun k h results => purge (env.purgeNow k) h results) fuel hashes with
  | none => none
  | some .crash => some .crash
  | some (.ret out) =>
    match out.err with
    | some err => some (.ret ⟨[], some err, out.calls, out.state⟩)
    | none => some (.ret ⟨out.results.getD [], none, out.calls, out.state⟩)

/-! ## Provider messages (provider.go 8-50) -/

/-- The constant `T_CONFIGURE` (provider.go 8). -/
def T_CONFIGURE : GoString := lit "CONFIGURE"

/-- The struct `WhisperProviderMsg` (provider.go 17-19); `Type_` is its field
`Type`. -/
structure WhisperProviderMsg where
  Type_ : GoString

/-- The struct `Configure` (provider.go 22-32), which embeds `WhisperProviderMsg`.
`URL` stands for the library type `url.URL`; a `map[string]string` is given by its
entries. -/
structure Configure (URL : Type) extends WhisperProviderMsg where
  ConfigureNonce : GoString
  TorrentURL : URL
  ImageHashes : List (GoString × GoString)
  ImageSignatures : List (GoString × GoString)
  Deployment : GoString
  DeploymentSignature : GoString
  DeploymentUserInfo : GoString

/-- The function `NewConfigure` (provider.go 38-50); the pointer it returns is nil
when `none`. -/
def NewConfigure {URL : Type} (configureNonce : GoString) (torrentURL : URL)
    (imageHashes imageSignatures : List (GoString × GoString))
    (deployment deploymentSignature deploymentUserInfo : GoString) :
    Option (Configure URL) :=
  some {
    toWhisperProviderMsg := { Type_ := T_CONFIGURE }
    ConfigureNonce := configureNonce
    TorrentURL := torrentURL
    ImageHashes := imageHashes
    ImageSignatures := imageSignatures
    Deployment := deployment
    DeploymentSignature := deploymentSignature
    DeploymentUserInfo := deploymentUserInfo }

/-! ## Specification-side definitions and sample values -/

/-- The retained batch in the words of the specification: the items of the batch, in
input order, whose hash is no key of `hashes` and is not the hash of an earlier item
of the batch. -/
def retainedSpec (hashes : Hashes) (batch : List Result) : List Result :=
  ((batch.enumFrom 0).filter (fun p =>
    (hashes p.2.Hash).isNone && !((batch.take p.1).any (fun q => q.Hash == p.2.Hash)))).map
    Prod.snd

/-- A message sent at second 90 with a TTL of 10 seconds. -/
def sampleA : Result := ⟨lit "0xaa", 10, 90, lit "alice", lit "bob", [0x12, 0x34]⟩

/-- A message sent at second 1000 with a TTL of 50 seconds. -/
def sampleB : Result := ⟨lit "0xbb", 50, 1000, lit "alice", lit "bob", []⟩

/-- A message whose TTL is the `int` 2^62. -/
def sampleHuge : Result := ⟨lit "0xcc", 2 ^ 62, 0, [], [], []⟩

/-- The values of the members of a response object whose key selects the field
`result`, in input order. -/
def resultValues (members : List (GoString × JSON)) : List JSON :=
  (members.filter (fun kv => matchesField (lit "result") kv.1)).map Prod.snd

/-- A member effect that neither ends the decoding nor panics. -/
def Store.benign {α : Type} : Store α → Prop
  | .set _ => True
  | .mismatch _ => True
  | .fail _ => False
  | .crash => False

/-- A member effect that saves a type error. -/
def Store.isMismatch {α : Type} : Store α → Prop
  | .mismatch _ => True
  | _ => False

/-- The filter-poll exchange `WhisperSend(client, url, GET_MSGS, WrapParam(filterId), 5)`. -/
def pollCall (fid : GoString) : Call := ⟨Method.GET_MSGS, WrapParam (.str fid)⟩

/-- Number of filter-poll exchanges among `calls`. -/
def pollCount (calls : List Call) : Nat :=
  calls.countP (fun c => c.method = Method.GET_MSGS)

/-- A response body `{"jsonrpc": "2.0", "id": "1", "result": result}`. -/
def envelope (result : JSON) : Option JSON :=
  some (.obj [(lit "jsonrpc", .str (lit "2.0")), (lit "id", .str (lit "1")),
    (lit "result", result)])

/-- The wire form of `sampleA`, payload `0x1234`. -/
def wireA : JSON :=
  .obj [(lit "hash", .str (lit "0xaa")), (lit "ttl", .num 10), (lit "sent", .num 90),
    (lit "from", .str (lit "alice")), (lit "to", .str (lit "bob")),
    (lit "payload", .str (lit "0x1234"))]

/-- A Result on the wire whose payload `0xZZ` is no hex text. -/
def wireMalformed : JSON :=
  .obj [(lit "hash", .str (lit "0xbb")), (lit "ttl", .num 50), (lit "sent", .num 1000),
    (lit "from", .str (lit "alice")), (lit "to", .str (lit "bob")),
    (lit "payload", .str (lit "0xZZ"))]

/-- A reply with status 200 and the body `envelope result`. -/
def ok200 (result : JSON) : HttpReply := .response 200 (.content (envelope result))

/-- A node that answers filter-create with the id `0xf1`, a filter-poll with
`polls i` when `i` polls were made before, and any other call with `true`. -/
def sampleServer (polls : Nat → JSON) : Server := fun calls method _ =>
  match method with
  | .NEW_FILTER => ok200 (.str (lit "0xf1"))
  | .GET_MSGS => ok200 (polls (pollCount calls))
  | _ => ok200 (.bool true)

/-- The topics of the tests of the repository. -/
def sampleTopics : Value := .strs [lit "micropayment", lit "handout"]

/-- Results, error and methods called of a finished call of the reader closure. -/
def summary : Option (Run ReaderReturn) → Option (List Result × Option Error × List Method)
  | some (.ret out) => some (out.results, out.err, out.calls.map (fun c => c.method))
  | _ => none

/-- A clock that still shows the start second in the first three guards, and a node
without messages. -/
def slowClockEnv : Env :=
  ⟨100, fun k => if k < 3 then 100 else 101, fun _ _ => 100, sampleServer (fun _ => .arr [])⟩

/-- The filter-create exchange of `newFilter` for `topics`. -/
def createCall (topics : Value) : Call :=
  ⟨Method.NEW_FILTER, (MapMsgParams [(lit "topics", topics)] toHex).1⟩

/-- A node that answers two polls with an empty batch and then with `sampleA`. -/
def blockingEnv : Env :=
  ⟨100, fun _ => 100, fun _ _ => 100,
    sampleServer (fun i => if i < 2 then .arr [] else .arr [wireA])⟩

/-- A node that answers the first poll with `sampleA`. -/
def eagerEnv : Env :=
  ⟨100, fun _ => 100, fun _ _ => 100, sampleServer (fun _ => .arr [wireA])⟩

/-- A node that answers the first poll with a null result and then with `sampleA`. -/
def expiredFilterEnv : Env :=
  ⟨100, fun _ => 100, fun _ _ => 100,
    sampleServer (fun i => if i = 0 then .null else .arr [wireA])⟩

/-- A node that answers every poll with the boolean `true`. -/
def boolEnv : Env :=
  ⟨100, fun _ => 100, fun _ _ => 100, sampleServer (fun _ => .bool true)⟩

/-- A node that answers every poll with `sampleA` and a Result of malformed payload. -/
def malformedEnv : Env :=
  ⟨100, fun _ => 100, fun _ _ => 100, sampleServer (fun _ => .arr [wireA, wireMalformed])⟩

/-- A node that answers every call with the given status and the body
`envelope result`. -/
def statusServer (status : Int) (result : JSON) : Server :=
  fun _ _ _ => .response status (.content (envelope result))

/-- The timeout guard of iteration `k` of `read` (client.go 352). -/
def timedOut (env : Env) (readTimeoutS : Int) (k : Nat) : Prop :=
  readTimeoutS > -1 ∧ env.now k > wrapInt64 (env.start + readTimeoutS)

instance (env : Env) (readTimeoutS : Int) (k : Nat) :
    Decidable (timedOut env readTimeoutS k) := by
  unfold timedOut; infer_instance

/-- A node that answers every call, filter-create included, with the boolean
`true`. -/
def refusingEnv : Env :=
  ⟨100, fun _ => 100, fun _ _ => 100, statusServer 200 (.bool true)⟩

/-- What a finished call of the reader closure returned (an empty return for a call
that did not finish). -/
def returned : Option (Run ReaderReturn) → ReaderReturn
  | some (.ret out) => out
  | _ => ⟨[], none, [], emptyHashes⟩

/-- A Result on the wire with the fields of `sampleA` and the given payload text, or
without a payload member. -/
def wireWithPayload (payload : Option GoString) : JSON :=
  .obj ([(lit "hash", .str (lit "0xaa")), (lit "ttl", .num 10), (lit "sent", .num 90),
    (lit "from", .str (lit "alice")), (lit "to", .str (lit "bob"))] ++
    match payload with
    | some p => [(lit "payload", .str p)]
    | none => [])

/-- A node that answers every call with the body
`{"jsonrpc": "2.0", "id": 1, "result": true}`, whose `id` is a number. -/
def numericIdServer : Server :=
  fun _ _ _ => .response 200 (.content (some (.obj
    [(lit "jsonrpc", .str (lit "2.0")), (lit "id", .num 1), (lit "result", .bool true)])))

/-- A node that answers every call with a `result` array that holds a Result of
malformed payload and the number literal `1e400`. -/
def overflowServer : Server :=
  fun _ _ _ => .response 200 (.content (envelope (.arr [wireMalformed, .real 1 400])))

/-! ## Lemmas on the dedup cache -/

theorem wrapBits64_of_range (x : Int) (h : -(2 : Int) ^ 63 ≤ x ∧ x < (2 : Int) ^ 63) :
    wrapBits 64 x = x := by
  unfold wrapBits
  norm_num at h ⊢
  omega

theorem excludedBy_single {σ : Type} (fn : ResultFilter σ) (s : σ) (r : Result) :
    excludedBy [fn] s r = fn s r := by
  rcases h : fn s r with ⟨b, s1⟩
  cases b <;> simp [excludedBy, h]

theorem filterIfLoop_acc {σ : Type} (fns : List (ResultFilter σ)) (rs acc : List Result)
    (s : σ) :
    filterIfLoop fns rs acc s
      = (acc ++ (filterIfLoop fns rs [] s).1, (filterIfLoop fns rs [] s).2) := by
  induction rs generalizing acc s with
  | nil => simp [filterIfLoop]
  | cons r rest ih =>
    rcases h : excludedBy fns s r with ⟨b, s1⟩
    cases b
    · simp only [filterIfLoop, h]
      rw [ih (acc ++ [r]), ih ([] ++ [r])]
      simp
    · simp only [filterIfLoop, h]
      rw [ih acc]

theorem filterIf_known_nil (h : Hashes) : filterIf [] [filterKnownHashFn] h = ([], h) := rfl

theorem filterIf_known_cons (h : Hashes) (r : Result) (rest : List Result) :
    filterIf (r :: rest) [filterKnownHashFn] h =
      if (h r.Hash).isSome then filterIf rest [filterKnownHashFn] h
      else (r :: (filterIf rest [filterKnownHashFn] (addHash h r.Hash r.Sent r.Ttl)).1,
            (filterIf rest [filterKnownHashFn] (addHash h r.Hash r.Sent r.Ttl)).2) := by
  unfold filterIf
  by_cases hr : (h r.Hash).isSome
  · simp [filterIfLoop, excludedBy_single, filterKnownHashFn, hr]
  · simp [filterIfLoop, excludedBy_single, filterKnownHashFn, hr]
    rw [filterIfLoop_acc]
    simp

theorem filterIf_known_cache (batch : List Result) (h : Hashes) (k : GoString) :
    (filterIf batch [filterKnownHashFn] h).2 k =
      match h k with
      | some e => some e
      | none =>
        (batch.find? (fun r => r.Hash == k)).map (fun r => expiration r.Sent r.Ttl) := by
  induction batch generalizing h with
  | nil => simp [filterIf_known_nil]; cases h k <;> rfl
  | cons r rest ih =>
    rw [filterIf_known_cons]
    by_cases hr : (h r.Hash).isSome
    · simp only [hr, if_true]
      rw [ih]
      cases hk : h k with
      | some e => rfl
      | none =>
        have : (r.Hash == k) = false := by
          rw [beq_eq_false_iff_ne]
          intro he
          rw [he, hk] at hr
          simp at hr
        simp [List.find?, this]
    · simp only [hr]
      rw [if_neg (by simp), ih]
      by_cases hk : k = r.Hash
      · subst hk
        have hn : h r.Hash = none := by
          cases hh : h r.Hash with
          | none => rfl
          | some e => simp [hh] at hr
        simp [addHash, mapSet, hn, List.find?]
      · have h1 : (r.Hash == k) = false := by
          rw [beq_eq_false_iff_ne]; exact fun he => hk he.symm
        simp [addHash, mapSet, hk, List.find?, h1]

theorem filterIf_known_kept_gen (rest pre : List Result) (h0 h : Hashes)
    (inv : ∀ k, (h k).isNone = ((h0 k).isNone && !pre.any (fun q => q.Hash == k))) :
    (filterIf rest [filterKnownHashFn] h).1 =
      ((rest.enumFrom pre.length).filter (fun p =>
        (h0 p.2.Hash).isNone &&
          !(((pre ++ rest).take p.1).any (fun q => q.Hash == p.2.Hash)))).map Prod.snd := by
  induction rest generalizing pre h with
  | nil => simp [filterIf_known_nil]
  | cons r rest ih =>
    have hhead : ((h0 r.Hash).isNone &&
        !(((pre ++ r :: rest).take pre.length).any (fun q => q.Hash == r.Hash)))
          = (h r.Hash).isNone := by
      rw [inv, List.take_left]
    have happ : pre ++ r :: rest = (pre ++ [r]) ++ rest := by simp
    have hlen : pre.length + 1 = (pre ++ [r]).length := by simp
    rw [filterIf_known_cons, List.enumFrom_cons, List.filter_cons, hhead]
    by_cases hr : (h r.Hash).isSome
    · have hnone : (h r.Hash).isNone = false := by
        cases hh : h r.Hash with
        | none => simp [hh] at hr
        | some e => rfl
      rw [if_pos hr, hnone, happ, hlen]
      simp only [Bool.false_eq_true, if_false]
      apply ih
      intro k
      rw [inv k]
      by_cases hk : r.Hash = k
      · subst hk
        have := inv r.Hash
        rw [hnone] at this
        simp [List.any_append, ← this]
      · have : (r.Hash == k) = false := by rw [beq_eq_false_iff_ne]; exact hk
        simp [List.any_append, this]
    · have hnone : (h r.Hash).isNone = true := by
        cases hh : h r.Hash with
        | none => rfl
        | some e => simp [hh] at hr
      rw [if_neg hr, hnone, happ, hlen]
      simp only [if_true, List.map_cons]
      congr 1
      apply ih
      intro k
      by_cases hk : r.Hash = k
      · subst hk
        simp [addHash, mapSet, List.any_append]
      · have h1 : (r.Hash == k) = false := by rw [beq_eq_false_iff_ne]; exact hk
        have h2 : ¬ k = r.Hash := fun e => hk e.symm
        simp [addHash, mapSet, List.any_append, h1, h2, inv k]

theorem filterIf_known_kept (batch : List Result) (h : Hashes) :
    (filterIf batch [filterKnownHashFn] h).1 = retainedSpec h batch := by
  have := filterIf_known_kept_gen batch [] h h (by intro k; simp)
  simpa [retainedSpec] using this

theorem filterIf_known_inserted (batch : List Result) (h : Hashes) (r : Result)
    (hr : r ∈ (filterIf batch [filterKnownHashFn] h).1) :
    (filterIf batch [filterKnownHashFn] h).2 r.Hash = some (expiration r.Sent r.Ttl) := by
  induction batch generalizing h with
  | nil => simp [filterIf_known_nil] at hr
  | cons x rest ih =>
    rw [filterIf_known_cons] at hr ⊢
    by_cases hx : (h x.Hash).isSome
    · rw [if_pos hx] at hr ⊢
      exact ih h hr
    · rw [if_neg hx] at hr ⊢
      simp only [List.mem_cons] at hr
      rcases hr with rfl | hr
      · simp only []
        rw [filterIf_known_cache]
        simp [addHash, mapSet]
      · exact ih _ hr

theorem purgeExpired_some (now : Int) (hashes : Hashes) (k : GoString) (e : Int)
    (h : hashes k = some e) :
    purgeExpired (fun _ => now) hashes k = if e < now then none else some e := by
  simp [purgeExpired, h]

theorem purgeExpired_none (now : Int) (hashes : Hashes) (k : GoString)
    (h : hashes k = none) : purgeExpired (fun _ => now) hashes k = none := by
  simp [purgeExpired, h]

theorem purgeAt_single (now : Int) (hashes : Hashes) (r : Result) :
    purgeAt now hashes [r] =
      if (purgeExpired (fun _ => now) hashes r.Hash).isSome then
        ([], purgeExpired (fun _ => now) hashes)
      else ([r], addHash (purgeExpired (fun _ => now) hashes) r.Hash r.Sent r.Ttl) := by
  unfold purgeAt purge
  rw [filterIf_known_cons]
  simp only [filterIf_known_nil]

/-! ## C1: dedup idempotence -/

/-- C1, as amended. After the purge-then-filter step has run on the batch `[r]` at
`now1`, the cache holds an entry for the hash of `r`; a second run on `[r]` at `now2`
returns the empty batch whenever that entry has not expired at `now2`
(`now2 ≤ expiresAt`), and returns `[r]` again when it has. -/
theorem dedup_repeat_within_window (r : Result) (hashes : Hashes) (now1 now2 : Int) :
    (∃ e, (purgeAt now1 hashes [r]).2 r.Hash = some e) ∧
    (∀ e, (purgeAt now1 hashes [r]).2 r.Hash = some e → now2 ≤ e →
      (purgeAt now2 (purgeAt now1 hashes [r]).2 [r]).1 = []) ∧
    (∀ e, (purgeAt now1 hashes [r]).2 r.Hash = some e → e < now2 →
      (purgeAt now2 (purgeAt now1 hashes [r]).2 [r]).1 = [r]) := by
  refine ⟨?_, ?_, ?_⟩
  · rw [purgeAt_single]
    cases hp : purgeExpired (fun _ => now1) hashes r.Hash with
    | some e => exact ⟨e, by simp [hp]⟩
    | none => exact ⟨expiration r.Sent r.Ttl, by simp [hp, addHash, mapSet]⟩
  · intro e he hle
    rw [purgeAt_single now2, purgeExpired_some now2 _ _ e he]
    have : ¬ e < now2 := by omega
    simp [this]
  · intro e he hlt
    rw [purgeAt_single now2, purgeExpired_some now2 _ _ e he]
    simp [hlt]

/-- C1, witness: `sampleA` is cached until second 110, and a second pass at second 105
drops it. -/
theorem dedup_repeat_witness :
    (purgeAt 100 emptyHashes [sampleA]).2 sampleA.Hash = some 110 ∧
    (purgeAt 105 (purgeAt 100 emptyHashes [sampleA]).2 [sampleA]).1 = [] :=
  ⟨by decide,
   (dedup_repeat_within_window sampleA emptyHashes 100 105).2.1 110 (by decide) (by decide)⟩

/-- C1, counterexample: with clock readings 100 ≤ 200, `sampleA` (cached until second
110) is retained by the first pass and retained again by the second. -/
theorem dedup_repeat_after_expiry :
    (100 : Int) ≤ 200 ∧ (purgeAt 100 emptyHashes [sampleA]).1 = [sampleA] ∧
    (purgeAt 200 (purgeAt 100 emptyHashes [sampleA]).2 [sampleA]).1 = [sampleA] := by
  decide

/-! ## C3: the filter step -/

/-- C3. For every cache state and batch, the batch retained by `filterIf` with
`filterKnownHashFn` is the list of the items, in input order, whose hash is no key of
the cache and no hash of an earlier item of the batch; every retained item has its
entry in the cache afterwards; and the cache afterwards keeps every entry it had
(dropped items change nothing) and maps a new key to the expiration of the first item
of the batch with that hash. The closure `purge` runs this step on the purged cache. -/
theorem filter_step_retains_unseen (hashes : Hashes) (batch : List Result) :
    (filterIf batch [filterKnownHashFn] hashes).1 = retainedSpec hashes batch ∧
    (∀ r ∈ (filterIf batch [filterKnownHashFn] hashes).1,
      hashes r.Hash = none ∧
      (filterIf batch [filterKnownHashFn] hashes).2 r.Hash
        = some (expiration r.Sent r.Ttl)) ∧
    (∀ k, (filterIf batch [filterKnownHashFn] hashes).2 k =
      match hashes k with
      | some e => some e
      | none =>
        (batch.find? (fun r => r.Hash == k)).map (fun r => expiration r.Sent r.Ttl)) ∧
    (∀ now, purge now hashes batch
      = filterIf batch [filterKnownHashFn] (purgeExpired now hashes)) := by
  refine ⟨filterIf_known_kept batch hashes, ?_, filterIf_known_cache batch hashes,
    fun _ => rfl⟩
  intro r hr
  refine ⟨?_, filterIf_known_inserted batch hashes r hr⟩
  rw [filterIf_known_kept, retainedSpec] at hr
  simp only [List.mem_map, List.mem_filter, Bool.and_eq_true] at hr
  obtain ⟨p, ⟨_, hp, _⟩, rfl⟩ := hr
  cases hh : hashes p.2.Hash with
  | none => rfl
  | some e => simp [hh] at hp

/-- C3, witness: of the batch `[sampleA, sampleB, sampleA]` on the empty cache the
first two items are retained, and `sampleA` is cached until second 110. -/
theorem filter_step_witness :
    (filterIf [sampleA, sampleB, sampleA] [filterKnownHashFn] emptyHashes).1
      = [sampleA, sampleB] ∧
    (filterIf [sampleA, sampleB, sampleA] [filterKnownHashFn] emptyHashes).2 sampleA.Hash
      = some 110 :=
  ⟨by decide,
   ((filter_step_retains_unseen emptyHashes [sampleA, sampleB, sampleA]).2.1 sampleA
      (by decide)).2.trans (by decide)⟩

/-! ## C4: the expiry purge -/

/-- C4. A purge pass at clock reading `now` removes an entry exactly when its
expiration is below `now` and changes no other entry; an entry that expires at `T` is
kept by a pass at `T - 1` and at `T` and removed by a pass at `T + 1`. On an empty
batch the closure `purge` does nothing else. -/
theorem purge_removes_exactly_expired (hashes : Hashes) (now : Int) (hash : GoString) :
    (∀ e, hashes hash = some e → e < now →
      purgeExpired (fun _ => now) hashes hash = none) ∧
    (∀ e, hashes hash = some e → ¬ e < now →
      purgeExpired (fun _ => now) hashes hash = some e) ∧
    (hashes hash = none → purgeExpired (fun _ => now) hashes hash = none) ∧
    (∀ T, hashes hash = some T →
      purgeExpired (fun _ => T - 1) hashes hash = some T ∧
      purgeExpired (fun _ => T) hashes hash = some T ∧
      purgeExpired (fun _ => T + 1) hashes hash = none) ∧
    purgeAt now hashes [] = ([], purgeExpired (fun _ => now) hashes) := by
  refine ⟨?_, ?_, ?_, ?_, rfl⟩
  · intro e he hlt
    rw [purgeExpired_some now hashes hash e he, if_pos hlt]
  · intro e he hge
    rw [purgeExpired_some now hashes hash e he, if_neg hge]
  · exact purgeExpired_none now hashes hash
  · intro T hT
    refine ⟨?_, ?_, ?_⟩
    · rw [purgeExpired_some _ hashes hash T hT, if_neg (by omega)]
    · rw [purgeExpired_some _ hashes hash T hT, if_neg (by omega)]
    · rw [purgeExpired_some _ hashes hash T hT, if_pos (by omega)]

/-- C4, witness: the entry of `sampleA` (expiration 110) survives the passes at 109
and 110 and is gone after the pass at 111. -/
theorem purge_witness :
    purgeExpired (fun _ => 110 - 1) (mapSet emptyHashes sampleA.Hash 110) sampleA.Hash
      = some 110 ∧
    purgeExpired (fun _ => 110) (mapSet emptyHashes sampleA.Hash 110) sampleA.Hash
      = some 110 ∧
    purgeExpired (fun _ => 110 + 1) (mapSet emptyHashes sampleA.Hash 110) sampleA.Hash
      = none :=
  (purge_removes_exactly_expired (mapSet emptyHashes sampleA.Hash 110) 0
    sampleA.Hash).2.2.2.1 110 (by decide)

/-! ## C9: the retention margin -/

/-- C9, as amended. When `filterKnownHashFn` retains `r`, the entry of its hash is
`sent + 2×ttl` whenever the product `2×ttl` is a value of `int` and the sum is a
value of `int64`. -/
theorem expiration_exact_in_range (hashes : Hashes) (r : Result)
    (hnew : hashes r.Hash = none) (hmul : inInt (r.Ttl * 2))
    (hsum : inInt64 (r.Sent + r.Ttl * 2)) :
    (filterKnownHashFn hashes r).1 = false ∧
    (filterKnownHashFn hashes r).2 r.Hash = some (r.Sent + 2 * r.Ttl) := by
  have h1 : wrapInt (r.Ttl * 2) = r.Ttl * 2 := wrapBits64_of_range _ hmul
  have h2 : wrapInt64 (r.Sent + r.Ttl * 2) = r.Sent + r.Ttl * 2 :=
    wrapBits64_of_range _ hsum
  simp [filterKnownHashFn, hnew, addHash, mapSet, expiration, h1, h2]
  ring

/-- C9, witness: `sampleA` gets the entry 90 + 2×10. -/
theorem expiration_exact_witness :
    (filterKnownHashFn emptyHashes sampleA).1 = false ∧
    (filterKnownHashFn emptyHashes sampleA).2 sampleA.Hash = some (90 + 2 * 10) :=
  expiration_exact_in_range emptyHashes sampleA (by decide) (by decide) (by decide)

/-- C9, counterexample: for `sent = 0` and the `int` value `ttl = 2^62` the entry is
`-2^63`, not `0 + 2×2^62`. -/
theorem expiration_wraps_around :
    inInt sampleHuge.Ttl ∧ inInt64 sampleHuge.Sent ∧
    (filterKnownHashFn emptyHashes sampleHuge).1 = false ∧
    (filterKnownHashFn emptyHashes sampleHuge).2 sampleHuge.Hash = some (-2 ^ 63) ∧
    (-2 ^ 63 : Int) ≠ sampleHuge.Sent + 2 * sampleHuge.Ttl := by
  decide

/-! ## Lemmas on the decoder -/

theorem decodeMembers_benign {α : Type} (store : α → GoString → JSON → Store α)
    (ms : List (GoString × JSON))
    (hb : ∀ kv ∈ ms, ∀ a, (store a kv.1 kv.2).benign) (a : α) (saved : Bool) :
    ∃ a1 e, decodeMembers store ms a saved = .ret (a1, e) ∧
      (saved = true → e = some Error.jsonType) ∧
      ((∃ kv ∈ ms, ∀ a, (store a kv.1 kv.2).isMismatch) → e = some Error.jsonType) := by
  induction ms generalizing a saved with
  | nil =>
    refine ⟨a, _, rfl, ?_, ?_⟩
    · intro h; simp [h]
    · rintro ⟨kv, hkv, _⟩; simp at hkv
  | cons kv rest ih =>
    obtain ⟨k, v⟩ := kv
    have hrest : ∀ kv ∈ rest, ∀ a, (store a kv.1 kv.2).benign :=
      fun kv hkv => hb kv (List.mem_cons_of_mem _ hkv)
    have hhead := hb (k, v) (List.mem_cons_self _ _) a
    cases hst : store a k v with
    | set a2 =>
      obtain ⟨a1, e, h1, h2, h3⟩ := ih hrest a2 saved
      refine ⟨a1, e, by simp [decodeMembers, hst, h1], h2, ?_⟩
      rintro ⟨kv, hkv, hmis⟩
      rcases List.mem_cons.mp hkv with rfl | hin
      · have := hmis a
        simp [hst, Store.isMismatch] at this
      · exact h3 ⟨kv, hin, hmis⟩
    | mismatch a2 =>
      obtain ⟨a1, e, h1, h2, _⟩ := ih hrest a2 true
      exact ⟨a1, e, by simp [decodeMembers, hst, h1], fun _ => h2 rfl, fun _ => h2 rfl⟩
    | fail e => simp [hst, Store.benign] at hhead
    | crash => simp [hst, Store.benign] at hhead

theorem storeBase_cases (base : Option WhisperRPCMsg) (k : GoString) (v : JSON) :
    storeBase base k v = none ∨ (∃ b, storeBase base k v = some (.set b)) ∨
      (∃ b, storeBase base k v = some (.mismatch b)) := by
  unfold storeBase
  simp only []
  split
  · split
    · exact Or.inr (Or.inl ⟨_, rfl⟩)
    · exact Or.inr (Or.inr ⟨_, rfl⟩)
  · split
    · split
      · exact Or.inr (Or.inl ⟨_, rfl⟩)
      · exact Or.inr (Or.inr ⟨_, rfl⟩)
    · exact Or.inl rfl

theorem storeSingleBool_benign (x : WhisperRPCIncomingMsgSingleBool) (k : GoString) (v : JSON) :
    (storeSingleBool x k v).benign := by
  unfold storeSingleBool
  split
  · split <;> trivial
  · rcases storeBase_cases x.base k v with h | ⟨b, h⟩ | ⟨b, h⟩ <;> simp [h, Store.benign]

theorem storeSingleStr_benign (x : WhisperRPCIncomingMsgSingleStr) (k : GoString) (v : JSON) :
    (storeSingleStr x k v).benign := by
  unfold storeSingleStr
  split
  · split <;> trivial
  · rcases storeBase_cases x.base k v with h | ⟨b, h⟩ | ⟨b, h⟩ <;> simp [h, Store.benign]

theorem storeGeneric_benign (x : WhisperRPCMsg) (k : GoString) (v : JSON) :
    (storeGeneric x k v).benign := by
  unfold storeGeneric
  split
  · split <;> trivial
  · split
    · split <;> trivial
    · split
      · split
        · trivial
        · split <;> trivial
      · trivial

theorem float64Limit_eq : float64Limit = 2 ^ 1024 - 2 ^ 970 := by
  norm_num [float64Limit]

theorem storeMulti_benign_of_not_arr (x : WhisperRPCIncomingMsgMulti) (k : GoString) (v : JSON)
    (h : matchesField (lit "result") k = true → ∀ es, v ≠ .arr es) :
    (storeMulti x k v).benign := by
  unfold storeMulti
  split
  · rename_i hk
    have := h hk
    cases v with
    | arr es => exact absurd rfl (this es)
    | _ => trivial
  · rcases storeBase_cases x.base k v with h | ⟨b, h⟩ | ⟨b, h⟩ <;> simp [h, Store.benign]

theorem matchesField_fold (f k : GoString) (h : matchesField f k = true) :
    foldName k = foldName f := by
  unfold matchesField at h
  simp only [Bool.or_eq_true, beq_iff_eq] at h
  rcases h with h | h
  · rw [h]
  · exact h

theorem not_jsonrpc_of_result (k : GoString) (h : matchesField (lit "result") k = true) :
    matchesField (lit "jsonrpc") k = false := by
  cases hj : matchesField (lit "jsonrpc") k with
  | false => rfl
  | true =>
    have h1 := matchesField_fold _ _ h
    have h2 := matchesField_fold _ _ hj
    rw [h1] at h2
    exact absurd h2 (by decide)

theorem not_id_of_result (k : GoString) (h : matchesField (lit "result") k = true) :
    matchesField (lit "id") k = false := by
  cases hj : matchesField (lit "id") k with
  | false => rfl
  | true =>
    have h1 := matchesField_fold _ _ h
    have h2 := matchesField_fold _ _ hj
    rw [h1] at h2
    exact absurd h2 (by decide)

theorem mem_resultValues (ms : List (GoString × JSON)) (kv : GoString × JSON)
    (hkv : kv ∈ ms) (hk : matchesField (lit "result") kv.1 = true) :
    kv.2 ∈ resultValues ms := by
  unfold resultValues
  exact List.mem_map.mpr ⟨kv, List.mem_filter.mpr ⟨hkv, hk⟩, rfl⟩

theorem exists_of_resultValues (ms : List (GoString × JSON)) (v : JSON)
    (hv : v ∈ resultValues ms) :
    ∃ kv ∈ ms, matchesField (lit "result") kv.1 = true ∧ kv.2 = v := by
  unfold resultValues at hv
  obtain ⟨kv, hkv, rfl⟩ := List.mem_map.mp hv
  obtain ⟨h1, h2⟩ := List.mem_filter.mp hkv
  exact ⟨kv, h1, h2, rfl⟩

theorem resultValues_single (ms : List (GoString × JSON)) (v : JSON)
    (h : resultValues ms = [v]) :
    (∀ kv ∈ ms, matchesField (lit "result") kv.1 = true → kv.2 = v) ∧
    (∃ kv ∈ ms, matchesField (lit "result") kv.1 = true ∧ kv.2 = v) := by
  constructor
  · intro kv hkv hk
    have := mem_resultValues ms kv hkv hk
    rw [h] at this
    simpa using this
  · exact exists_of_resultValues ms v (by rw [h]; simp)

theorem decodeMembers_singleBool_result (b : Bool) (ms : List (GoString × JSON))
    (hall : ∀ kv ∈ ms, matchesField (lit "result") kv.1 = true → kv.2 = .bool b)
    (x : WhisperRPCIncomingMsgSingleBool) (saved : Bool)
    (x1 : WhisperRPCIncomingMsgSingleBool) (e : Option Error)
    (h : decodeMembers storeSingleBool ms x saved = .ret (x1, e)) :
    x1.Result = if ms.any (fun kv => matchesField (lit "result") kv.1) then b else x.Result := by
  induction ms generalizing x saved with
  | nil =>
    simp only [decodeMembers, Run.ret.injEq, Prod.mk.injEq] at h
    simp [← h.1]
  | cons kv rest ih =>
    obtain ⟨k, v⟩ := kv
    have hrest : ∀ kv ∈ rest, matchesField (lit "result") kv.1 = true → kv.2 = .bool b :=
      fun kv hkv => hall kv (List.mem_cons_of_mem _ hkv)
    by_cases hk : matchesField (lit "result") k = true
    · have hv : v = .bool b := hall (k, v) (List.mem_cons_self _ _) hk
      subst hv
      have hst : storeSingleBool x k (.bool b) = .set { x with Result := b } := by
        simp [storeSingleBool, hk, storeBool]
      simp only [decodeMembers, hst] at h
      have := ih hrest _ _ h
      rw [this]
      simp [hk]
    · have hst : ∃ bs, storeSingleBool x k v = .set { x with base := bs } ∨
          storeSingleBool x k v = .mismatch { x with base := bs } := by
        unfold storeSingleBool
        rw [if_neg hk]
        rcases storeBase_cases x.base k v with h | ⟨b, h⟩ | ⟨b, h⟩
        · exact ⟨x.base, by simp [h]⟩
        · exact ⟨b, by simp [h]⟩
        · exact ⟨b, by simp [h]⟩
      obtain ⟨bs, hst | hst⟩ := hst
      · simp only [decodeMembers, hst] at h
        have := ih hrest _ _ h
        have hk2 : matchesField (lit "result") k = false := by simpa using hk
        rw [this, List.any_cons, hk2, Bool.false_or]
      · simp only [decodeMembers, hst] at h
        have := ih hrest _ _ h
        have hk2 : matchesField (lit "result") k = false := by simpa using hk
        rw [this, List.any_cons, hk2, Bool.false_or]

theorem storeString_isSome_old (o1 o2 : GoString) (v : JSON) :
    (storeString o1 v).isSome = (storeString o2 v).isSome := by
  cases v <;> rfl

theorem storeBool_some_fits (old : Bool) (v : JSON) (c : Bool)
    (h : storeBool old v = some c) : numbersFit v = true := by
  cases v <;> simp [storeBool, numbersFit] at h ⊢

theorem storeGeneric_result_fit (g : WhisperRPCMsg) (k : GoString) (v : JSON)
    (hk : matchesField (lit "result") k = true) (hfit : numbersFit v = true) :
    ∃ g2, storeGeneric g k v = .set g2 := by
  unfold storeGeneric
  rw [if_neg (by simp [not_jsonrpc_of_result k hk]),
    if_neg (by simp [not_id_of_result k hk]), if_pos hk]
  cases v <;> simp [hfit]

theorem storeGeneric_result_unfit (g : WhisperRPCMsg) (k : GoString) (v : JSON)
    (hk : matchesField (lit "result") k = true) (hfit : numbersFit v = false) :
    storeGeneric g k v = .mismatch g := by
  unfold storeGeneric
  rw [if_neg (by simp [not_jsonrpc_of_result k hk]),
    if_neg (by simp [not_id_of_result k hk]), if_pos hk]
  cases v <;> first | (simp [numbersFit] at hfit; done) | simp [hfit]

theorem generic_of_singleBool (ms : List (GoString × JSON))
    (x : WhisperRPCIncomingMsgSingleBool) (g : WhisperRPCMsg) (saved : Bool)
    (x1 : WhisperRPCIncomingMsgSingleBool)
    (h : decodeMembers storeSingleBool ms x saved = .ret (x1, none)) :
    ∃ g1, decodeMembers storeGeneric ms g saved = .ret (g1, none) := by
  induction ms generalizing x g saved with
  | nil =>
    simp only [decodeMembers, Run.ret.injEq, Prod.mk.injEq] at h
    exact ⟨g, by simp [decodeMembers, h.2]⟩
  | cons kv rest ih =>
    obtain ⟨k, v⟩ := kv
    have hsaved : ∀ y, ¬ decodeMembers storeSingleBool rest y true = .ret (x1, none) := by
      intro y hy
      obtain ⟨a1, e, h1, h2, _⟩ := decodeMembers_benign storeSingleBool rest
        (fun kv _ a => storeSingleBool_benign a kv.1 kv.2) y true
      rw [h1] at hy
      have := h2 rfl
      simp only [Run.ret.injEq, Prod.mk.injEq] at hy
      rw [this] at hy
      exact absurd hy.2 (by simp)
    by_cases hk : matchesField (lit "result") k = true
    · cases hb : storeBool x.Result v with
      | none =>
        have hst : storeSingleBool x k v = .mismatch x := by
          simp [storeSingleBool, hk, hb]
        simp only [decodeMembers, hst] at h
        exact absurd h (hsaved _)
      | some c =>
        obtain ⟨g2, hg⟩ := storeGeneric_result_fit g k v hk (storeBool_some_fits _ v c hb)
        have hst : storeSingleBool x k v = .set { x with Result := c } := by
          simp [storeSingleBool, hk, hb]
        simp only [decodeMembers, hst] at h
        obtain ⟨g1, hg1⟩ := ih _ g2 _ h
        exact ⟨g1, by simp [decodeMembers, hg, hg1]⟩
    · by_cases hj : matchesField (lit "jsonrpc") k = true
      · cases hs : storeString (x.base.getD ⟨[], [], none⟩).JsonRPC v with
        | none =>
          have hst : storeSingleBool x k v
              = .mismatch { x with base := some (x.base.getD ⟨[], [], none⟩) } := by
            simp [storeSingleBool, hk, storeBase, hj, hs]
          simp only [decodeMembers, hst] at h
          exact absurd h (hsaved _)
        | some s =>
          have hst : ∃ y, storeSingleBool x k v = .set y := by
            simp [storeSingleBool, hk, storeBase, hj, hs]
          obtain ⟨y, hst⟩ := hst
          have hs2 : ∃ s2, storeString g.JsonRPC v = some s2 := by
            have := storeString_isSome_old g.JsonRPC (x.base.getD ⟨[], [], none⟩).JsonRPC v
            rw [hs] at this
            exact Option.isSome_iff_exists.mp (by simpa using this)
          obtain ⟨s2, hs2⟩ := hs2
          have hg : storeGeneric g k v = .set { g with JsonRPC := s2 } := by
            simp [storeGeneric, hj, hs2]
          simp only [decodeMembers, hst] at h
          obtain ⟨g1, hg1⟩ := ih _ { g with JsonRPC := s2 } _ h
          exact ⟨g1, by simp [decodeMembers, hg, hg1]⟩
      · by_cases hi : matchesField (lit "id") k = true
        · cases hs : storeString (x.base.getD ⟨[], [], none⟩).Id v with
          | none =>
            have hst : storeSingleBool x k v
                = .mismatch { x with base := some (x.base.getD ⟨[], [], none⟩) } := by
              simp [storeSingleBool, hk, storeBase, hj, hi, hs]
            simp only [decodeMembers, hst] at h
            exact absurd h (hsaved _)
          | some s =>
            have hst : ∃ y, storeSingleBool x k v = .set y := by
              simp [storeSingleBool, hk, storeBase, hj, hi, hs]
            obtain ⟨y, hst⟩ := hst
            have hs2 : ∃ s2, storeString g.Id v = some s2 := by
              have := storeString_isSome_old g.Id (x.base.getD ⟨[], [], none⟩).Id v
              rw [hs] at this
              exact Option.isSome_iff_exists.mp (by simpa using this)
            obtain ⟨s2, hs2⟩ := hs2
            have hg : storeGeneric g k v = .set { g with Id := s2 } := by
              simp [storeGeneric, hj, hi, hs2]
            simp only [decodeMembers, hst] at h
            obtain ⟨g1, hg1⟩ := ih _ { g with Id := s2 } _ h
            exact ⟨g1, by simp [decodeMembers, hg, hg1]⟩
        · have hst : storeSingleBool x k v = .set x := by
            simp [storeSingleBool, hk, storeBase, hj, hi]
          have hg : storeGeneric g k v = .set g := by
            simp [storeGeneric, hk, hj, hi]
          simp only [decodeMembers, hst] at h
          obtain ⟨g1, hg1⟩ := ih _ g _ h
          exact ⟨g1, by simp [decodeMembers, hg, hg1]⟩

theorem decodeMembers_singleBool_fold (ms : List (GoString × JSON))
    (x : WhisperRPCIncomingMsgSingleBool) (saved : Bool)
    (x1 : WhisperRPCIncomingMsgSingleBool) (e : Option Error)
    (h : decodeMembers storeSingleBool ms x saved = .ret (x1, e)) :
    x1.Result
      = (resultValues ms).foldl (fun acc v => (storeBool acc v).getD acc) x.Result := by
  induction ms generalizing x saved with
  | nil =>
    simp only [decodeMembers, Run.ret.injEq, Prod.mk.injEq] at h
    simp [resultValues, ← h.1]
  | cons kv rest ih =>
    obtain ⟨k, v⟩ := kv
    by_cases hk : matchesField (lit "result") k = true
    · have hrv : resultValues ((k, v) :: rest) = v :: resultValues rest := by
        simp [resultValues, hk]
      rw [hrv, List.foldl_cons]
      cases hb : storeBool x.Result v with
      | none =>
        have hst : storeSingleBool x k v = .mismatch x := by
          simp [storeSingleBool, hk, hb]
        simp only [decodeMembers, hst] at h
        rw [ih _ _ h]
        rfl
      | some c =>
        have hst : storeSingleBool x k v = .set { x with Result := c } := by
          simp [storeSingleBool, hk, hb]
        simp only [decodeMembers, hst] at h
        rw [ih _ _ h]
        rfl
    · have hrv : resultValues ((k, v) :: rest) = resultValues rest := by
        simp [resultValues, hk]
      rw [hrv]
      have hst : ∃ bs, storeSingleBool x k v = .set { x with base := bs } ∨
          storeSingleBool x k v = .mismatch { x with base := bs } := by
        unfold storeSingleBool
        rw [if_neg hk]
        rcases storeBase_cases x.base k v with h | ⟨b, h⟩ | ⟨b, h⟩
        · exact ⟨x.base, by simp [h]⟩
        · exact ⟨b, by simp [h]⟩
        · exact ⟨b, by simp [h]⟩
      obtain ⟨bs, hst | hst⟩ := hst
      · simp only [decodeMembers, hst] at h
        rw [ih _ _ h]
      · simp only [decodeMembers, hst] at h
        rw [ih _ _ h]

theorem foldl_storeBool_last (l : List JSON) (acc c : Bool)
    (h : l.getLast? = some (.bool c)) :
    l.foldl (fun acc v => (storeBool acc v).getD acc) acc = c := by
  obtain ⟨ys, rfl⟩ := List.getLast?_eq_some_iff.mp h
  simp [List.foldl_append, storeBool]

theorem exists_of_getLast (ms : List (GoString × JSON)) (v : JSON)
    (h : (resultValues ms).getLast? = some v) :
    ∃ kv ∈ ms, matchesField (lit "result") kv.1 = true ∧ kv.2 = v :=
  exists_of_resultValues ms v (List.mem_of_getLast?_eq_some h)

theorem not_result_of_base (k : GoString)
    (h : matchesField (lit "jsonrpc") k = true ∨ matchesField (lit "id") k = true) :
    ¬ matchesField (lit "result") k = true := by
  intro hr
  rcases h with h | h
  · rw [not_jsonrpc_of_result k hr] at h
    cases h
  · rw [not_id_of_result k hr] at h
    cases h

theorem storeString_other (old : GoString) (v : JSON) (hs : ∀ s, v ≠ .str s)
    (hn : v ≠ .null) : storeString old v = none := by
  cases v with
  | str s => exact absurd rfl (hs s)
  | null => exact absurd rfl hn
  | _ => rfl

theorem storeString_text (old : GoString) (v : JSON)
    (h : (∃ s, v = .str s) ∨ v = .null) : ∃ s, storeString old v = some s := by
  rcases h with ⟨s, rfl⟩ | rfl
  · exact ⟨s, rfl⟩
  · exact ⟨old, rfl⟩

theorem storeBase_mismatch (base : Option WhisperRPCMsg) (k : GoString) (v : JSON)
    (hk : matchesField (lit "jsonrpc") k = true ∨ matchesField (lit "id") k = true)
    (hs : ∀ s, v ≠ .str s) (hn : v ≠ .null) :
    ∃ b, storeBase base k v = some (.mismatch b) := by
  unfold storeBase
  simp only []
  by_cases hj : matchesField (lit "jsonrpc") k = true
  · rw [if_pos hj, storeString_other _ v hs hn]
    exact ⟨_, rfl⟩
  · have hi : matchesField (lit "id") k = true := hk.resolve_left hj
    rw [if_neg hj, if_pos hi, storeString_other _ v hs hn]
    exact ⟨_, rfl⟩

theorem storeBase_set (base : Option WhisperRPCMsg) (k : GoString) (v : JSON)
    (h : (∃ s, v = .str s) ∨ v = .null) :
    storeBase base k v = none ∨ ∃ b, storeBase base k v = some (.set b) := by
  unfold storeBase
  simp only []
  by_cases hj : matchesField (lit "jsonrpc") k = true
  · obtain ⟨s, hs⟩ := storeString_text (base.getD ⟨[], [], none⟩).JsonRPC v h
    rw [if_pos hj, hs]
    exact Or.inr ⟨_, rfl⟩
  · rw [if_neg hj]
    by_cases hi : matchesField (lit "id") k = true
    · obtain ⟨s, hs⟩ := storeString_text (base.getD ⟨[], [], none⟩).Id v h
      rw [if_pos hi, hs]
      exact Or.inr ⟨_, rfl⟩
    · rw [if_neg hi]
      exact Or.inl rfl

theorem storeBase_none (base : Option WhisperRPCMsg) (k : GoString) (v : JSON)
    (h : ¬ (matchesField (lit "jsonrpc") k = true ∨ matchesField (lit "id") k = true)) :
    storeBase base k v = none := by
  unfold storeBase
  simp only []
  rw [if_neg (fun hj => h (Or.inl hj)), if_neg (fun hi => h (Or.inr hi))]

theorem storeSingleBool_set (x : WhisperRPCIncomingMsgSingleBool) (k : GoString) (v : JSON)
    (hres : matchesField (lit "result") k = true → ∃ b, v = .bool b)
    (hbase : (matchesField (lit "jsonrpc") k = true ∨ matchesField (lit "id") k = true) →
      (∃ s, v = .str s) ∨ v = .null) :
    ∃ y, storeSingleBool x k v = .set y := by
  unfold storeSingleBool
  by_cases hk : matchesField (lit "result") k = true
  · obtain ⟨b, rfl⟩ := hres hk
    rw [if_pos hk]
    exact ⟨{ x with Result := b }, rfl⟩
  · rw [if_neg hk]
    by_cases hb : matchesField (lit "jsonrpc") k = true ∨ matchesField (lit "id") k = true
    · rcases storeBase_set x.base k v (hbase hb) with h | ⟨b, h⟩
      · rw [h]
        exact ⟨x, rfl⟩
      · rw [h]
        exact ⟨{ x with base := b }, rfl⟩
    · rw [storeBase_none x.base k v hb]
      exact ⟨x, rfl⟩

theorem decodeMembers_singleBool_ok (ms : List (GoString × JSON))
    (hres : ∀ kv ∈ ms, matchesField (lit "result") kv.1 = true → ∃ b, kv.2 = .bool b)
    (hbase : ∀ kv ∈ ms, (matchesField (lit "jsonrpc") kv.1 = true ∨
      matchesField (lit "id") kv.1 = true) → (∃ s, kv.2 = .str s) ∨ kv.2 = .null)
    (x : WhisperRPCIncomingMsgSingleBool) :
    ∃ x1, decodeMembers storeSingleBool ms x false = .ret (x1, none) := by
  induction ms generalizing x with
  | nil => exact ⟨x, by simp [decodeMembers]⟩
  | cons kv rest ih =>
    obtain ⟨k, v⟩ := kv
    obtain ⟨y, hy⟩ := storeSingleBool_set x k v (hres (k, v) (List.mem_cons_self _ _))
      (hbase (k, v) (List.mem_cons_self _ _))
    obtain ⟨x1, hx1⟩ := ih (fun kv hkv => hres kv (List.mem_cons_of_mem _ hkv))
      (fun kv hkv => hbase kv (List.mem_cons_of_mem _ hkv)) y
    exact ⟨x1, by simp [decodeMembers, hy, hx1]⟩

theorem unmarshalMulti_fails_on_bools (ms : List (GoString × JSON)) (c : Bool)
    (hall : ∀ v ∈ resultValues ms, ∃ b, v = .bool b)
    (hlast : (resultValues ms).getLast? = some (.bool c)) :
    ∃ m, unmarshalMulti (some (.obj ms)) = .ret (m, some Error.jsonType) := by
  obtain ⟨kv, hkv, hk, hv⟩ := exists_of_getLast ms _ hlast
  obtain ⟨a1, e, h1, _, h3⟩ := decodeMembers_benign storeMulti ms
    (fun kv hkv a => storeMulti_benign_of_not_arr a kv.1 kv.2
      (fun hk es => by
        obtain ⟨b, hb⟩ := hall _ (mem_resultValues ms kv hkv hk)
        rw [hb]; simp)) ⟨none, []⟩ false
  have he : e = some Error.jsonType := by
    apply h3
    refine ⟨kv, hkv, fun a => ?_⟩
    simp [storeMulti, hk, hv, Store.isMismatch]
  exact ⟨a1, by simp [unmarshalMulti, unmarshalStruct, h1, he]⟩

theorem all_shapes_fail_on_base (ms : List (GoString × JSON))
    (hall : ∀ v ∈ resultValues ms, ∃ b, v = .bool b)
    (hbad : ∃ kv ∈ ms, (matchesField (lit "jsonrpc") kv.1 = true ∨
      matchesField (lit "id") kv.1 = true) ∧ (∀ s, kv.2 ≠ .str s) ∧ kv.2 ≠ .null) :
    decodeContent (some (.obj ms)) = .ret (none, some Error.deserialize) := by
  obtain ⟨kv, hkv, hk, hs, hn⟩ := hbad
  have hnr := not_result_of_base kv.1 hk
  obtain ⟨m, e1, hm1, _, hm3⟩ := decodeMembers_benign storeMulti ms
    (fun kv hkv a => storeMulti_benign_of_not_arr a kv.1 kv.2
      (fun hk es => by
        obtain ⟨b, hb⟩ := hall _ (mem_resultValues ms kv hkv hk)
        rw [hb]; simp)) ⟨none, []⟩ false
  have he1 : e1 = some Error.jsonType := hm3 ⟨kv, hkv, fun a => by
    obtain ⟨b, hb⟩ := storeBase_mismatch a.base kv.1 kv.2 hk hs hn
    simp [storeMulti, hnr, hb, Store.isMismatch]⟩
  obtain ⟨b, e2, hb1, _, hb3⟩ := decodeMembers_benign storeSingleBool ms
    (fun kv _ a => storeSingleBool_benign a kv.1 kv.2) ⟨none, false⟩ false
  have he2 : e2 = some Error.jsonType := hb3 ⟨kv, hkv, fun a => by
    obtain ⟨b, hb⟩ := storeBase_mismatch a.base kv.1 kv.2 hk hs hn
    simp [storeSingleBool, hnr, hb, Store.isMismatch]⟩
  obtain ⟨s, e3, hs1, _, hs3⟩ := decodeMembers_benign storeSingleStr ms
    (fun kv _ a => storeSingleStr_benign a kv.1 kv.2) ⟨none, []⟩ false
  have he3 : e3 = some Error.jsonType := hs3 ⟨kv, hkv, fun a => by
    obtain ⟨b, hb⟩ := storeBase_mismatch a.base kv.1 kv.2 hk hs hn
    simp [storeSingleStr, hnr, hb, Store.isMismatch]⟩
  obtain ⟨g, e4, hg1, _, hg3⟩ := decodeMembers_benign storeGeneric ms
    (fun kv _ a => storeGeneric_benign a kv.1 kv.2) ⟨[], [], none⟩ false
  have he4 : e4 = some Error.jsonType := hg3 ⟨kv, hkv, fun a => by
    unfold storeGeneric
    by_cases hj : matchesField (lit "jsonrpc") kv.1 = true
    · rw [if_pos hj, storeString_other _ kv.2 hs hn]
      trivial
    · have hi : matchesField (lit "id") kv.1 = true := hk.resolve_left hj
      rw [if_neg hj, if_pos hi, storeString_other _ kv.2 hs hn]
      trivial⟩
  subst he1 he2 he3 he4
  simp [decodeContent, unmarshalMulti, unmarshalSingleBool, unmarshalSingleStr,
    unmarshalGeneric, unmarshalStruct, hm1, hb1, hs1, hg1]

theorem receive_ok (server : Server) (calls : List Call) (method : Method)
    (params : List Value) (content : Option JSON)
    (hm : marshalsList params = true)
    (hreply : server calls method params = .response 200 (.content content)) :
    (WhisperSend server calls method params).1 = decodeContent content := by
  simp [WhisperSend, hm, hreply, receive]

/-! ## C5: decode priority -/

/-- C5, as amended. For a reply with status 200 whose body was read, `WhisperSend`
returns the first of MultiResult, SingleBool, SingleString and Generic whose
`json.Unmarshal` gives no error, and the error "Error deserializing response" with a
nil message when all four give one. For a response object whose `result` field is a
JSON boolean: when the body satisfies the SingleBool shape, it satisfies the Generic
shape too and the message returned is the SingleBool one, carrying that boolean (the
last one, if the field is repeated); it does so whenever every `jsonrpc` and `id`
member is a string or null; and when a `jsonrpc` or `id` member has another JSON type
none of the four shapes decodes and the call returns the error and no message. -/
theorem decode_priority (server : Server) (calls : List Call) (method : Method)
    (params : List Value) (content : Option JSON)
    (hm : marshalsList params = true)
    (hreply : server calls method params = .response 200 (.content content)) :
    (∀ m, unmarshalMulti content = .ret (m, none) →
      (WhisperSend server calls method params).1 = .ret (some (.multi m), none)) ∧
    (∀ m e b, unmarshalMulti content = .ret (m, some e) →
      unmarshalSingleBool content = .ret (b, none) →
      (WhisperSend server calls method params).1 = .ret (some (.singleBool b), none)) ∧
    (∀ m e b e1 s, unmarshalMulti content = .ret (m, some e) →
      unmarshalSingleBool content = .ret (b, some e1) →
      unmarshalSingleStr content = .ret (s, none) →
      (WhisperSend server calls method params).1 = .ret (some (.singleStr s), none)) ∧
    (∀ m e b e1 s e2 g, unmarshalMulti content = .ret (m, some e) →
      unmarshalSingleBool content = .ret (b, some e1) →
      unmarshalSingleStr content = .ret (s, some e2) →
      unmarshalGeneric content = .ret (g, none) →
      (WhisperSend server calls method params).1 = .ret (some (.generic g), none)) ∧
    (∀ m e b e1 s e2 g e3, unmarshalMulti content = .ret (m, some e) →
      unmarshalSingleBool content = .ret (b, some e1) →
      unmarshalSingleStr content = .ret (s, some e2) →
      unmarshalGeneric content = .ret (g, some e3) →
      (WhisperSend server calls method params).1 = .ret (none, some Error.deserialize)) ∧
    (∀ members c, content = some (.obj members) →
      (∀ v ∈ resultValues members, ∃ b, v = .bool b) →
      (resultValues members).getLast? = some (.bool c) →
      (∀ x, unmarshalSingleBool content = .ret (x, none) →
        (∃ g, unmarshalGeneric content = .ret (g, none)) ∧
        x.Result = c ∧
        (WhisperSend server calls method params).1 = .ret (some (.singleBool x), none)) ∧
      ((∀ kv ∈ members, (matchesField (lit "jsonrpc") kv.1 = true ∨
          matchesField (lit "id") kv.1 = true) → (∃ s, kv.2 = .str s) ∨ kv.2 = .null) →
        ∃ x, x.Result = c ∧
          (WhisperSend server calls method params).1
            = .ret (some (.singleBool x), none)) ∧
      ((∃ kv ∈ members, (matchesField (lit "jsonrpc") kv.1 = true ∨
          matchesField (lit "id") kv.1 = true) ∧ (∀ s, kv.2 ≠ .str s) ∧ kv.2 ≠ .null) →
        (WhisperSend server calls method params).1
          = .ret (none, some Error.deserialize))) := by
  rw [receive_ok server calls method params content hm hreply]
  refine ⟨?_, ?_, ?_, ?_, ?_, ?_⟩
  · intro m h1
    simp [decodeContent, h1]
  · intro m e b h1 h2
    simp [decodeContent, h1, h2]
  · intro m e b e1 s h1 h2 h3
    simp [decodeContent, h1, h2, h3]
  · intro m e b e1 s e2 g h1 h2 h3 h4
    simp [decodeContent, h1, h2, h3, h4]
  · intro m e b e1 s e2 g e3 h1 h2 h3 h4
    simp [decodeContent, h1, h2, h3, h4]
  · intro members c hc hall hlast
    subst hc
    obtain ⟨m, hmul⟩ := unmarshalMulti_fails_on_bools members c hall hlast
    have key : ∀ x, unmarshalSingleBool (some (.obj members)) = .ret (x, none) →
        (∃ g, unmarshalGeneric (some (.obj members)) = .ret (g, none)) ∧
        x.Result = c ∧
        decodeContent (some (.obj members)) = .ret (some (.singleBool x), none) := by
      intro x hx
      have hx1 : decodeMembers storeSingleBool members ⟨none, false⟩ false
          = .ret (x, none) := hx
      refine ⟨?_, ?_, ?_⟩
      · exact generic_of_singleBool members _ ⟨[], [], none⟩ false x hx1
      · rw [decodeMembers_singleBool_fold members _ _ x none hx1]
        exact foldl_storeBool_last _ _ c hlast
      · simp [decodeContent, hmul, hx]
    refine ⟨key, ?_, ?_⟩
    · intro hbase
      obtain ⟨x, hx⟩ := decodeMembers_singleBool_ok members
        (fun kv hkv hk => hall _ (mem_resultValues members kv hkv hk)) hbase ⟨none, false⟩
      obtain ⟨_, h2, h3⟩ := key x hx
      exact ⟨x, h2, h3⟩
    · intro hbad
      exact all_shapes_fail_on_base members hall hbad

/-- C5, witness: the body with `"result": true` and string `jsonrpc` and `id` is
answered as SingleBool `true`. -/
theorem decode_priority_witness :
    ∃ x : WhisperRPCIncomingMsgSingleBool, x.Result = true ∧
      (WhisperSend boolEnv.server [] Method.CHECK_IDENTITY []).1
        = .ret (some (.singleBool x), none) :=
  ((decode_priority boolEnv.server [] Method.CHECK_IDENTITY [] (envelope (.bool true)) rfl
    rfl).2.2.2.2.2 _ true rfl
    (by
      intro v hv
      have h : resultValues [(lit "jsonrpc", JSON.str (lit "2.0")),
          (lit "id", JSON.str (lit "1")), (lit "result", JSON.bool true)]
            = [JSON.bool true] := rfl
      rw [h] at hv
      exact ⟨true, List.mem_singleton.mp hv⟩)
    rfl).2.1
    (by
      intro kv hkv _
      simp only [List.mem_cons, List.mem_singleton, List.not_mem_nil, or_false] at hkv
      rcases hkv with rfl | rfl | rfl
      · exact Or.inl ⟨_, rfl⟩
      · exact Or.inl ⟨_, rfl⟩
      · rename_i hm
        exact absurd hm (by decide))

/-- C5, counterexample: the body `{"jsonrpc": "2.0", "id": 1, "result": true}` has a
boolean `result` field, and `WhisperSend` returns a nil message and the deserializing
error for it, not a SingleBool message: the number `1` does not fit the string field
`Id` of any of the four shapes. -/
theorem numeric_id_is_error :
    resultValues [(lit "jsonrpc", JSON.str (lit "2.0")), (lit "id", JSON.num 1),
      (lit "result", JSON.bool true)] = [JSON.bool true] ∧
    (WhisperSend numericIdServer [] Method.CHECK_IDENTITY []).1
      = .ret (none, some Error.deserialize) :=
  ⟨rfl, rfl⟩

theorem hexDecodeString_malformed : ∀ (s : GoString),
    (s.length % 2 = 1 ∨ ∃ c ∈ s, fromHexChar c = none) → hexDecodeString s = none
  | [], h => by
    rcases h with h | ⟨c, hc, _⟩
    · simp at h
    · simp at hc
  | [_], _ => rfl
  | p :: q :: rest, h => by
    unfold hexDecodeString
    cases hp : fromHexChar p with
    | none => rfl
    | some a =>
      cases hq : fromHexChar q with
      | none => rfl
      | some b =>
        have ih := hexDecodeString_malformed rest (by
          rcases h with h | ⟨c, hc, hn⟩
          · left
            simp only [List.length_cons] at h
            omega
          · right
            simp only [List.mem_cons] at hc
            rcases hc with rfl | rfl | hc
            · rw [hp] at hn; simp at hn
            · rw [hq] at hn; simp at hn
            · exact ⟨c, hc, hn⟩)
        simp [ih]

theorem UnmarshalJSON_malformed (bad : JSON) (t : TResult)
    (hbad : unmarshalTResult bad = .ret (some t, none)) (hlen : 2 ≤ t.Payload.length)
    (hmal : (t.Payload.drop 2).length % 2 = 1 ∨ ∃ c ∈ t.Payload.drop 2, fromHexChar c = none) :
    Result.UnmarshalJSON bad = .ret (.error Error.hexDecode) := by
  have hl : ¬ t.Payload.length < 2 := by omega
  simp [Result.UnmarshalJSON, hbad, hl, hexDecodeString_malformed _ hmal]

theorem decodeResults_error (good rest : List JSON) (bad : JSON) (e : Error)
    (hgood : ∀ g ∈ good, ∃ r, Result.UnmarshalJSON g = .ret (.ok r))
    (hbad : Result.UnmarshalJSON bad = .ret (.error e)) :
    decodeResults (good ++ bad :: rest) = .ret (.error e) := by
  induction good with
  | nil => simp [decodeResults, hbad]
  | cons g gs ih =>
    obtain ⟨r, hr⟩ := hgood g (List.mem_cons_self _ _)
    have := ih (fun g hg => hgood g (List.mem_cons_of_mem _ hg))
    simp [decodeResults, hr, this]

theorem storeMulti_not_result (x : WhisperRPCIncomingMsgMulti) (k : GoString) (v : JSON)
    (hk : ¬ matchesField (lit "result") k = true) :
    ∃ y, storeMulti x k v = .set y ∨ storeMulti x k v = .mismatch y := by
  unfold storeMulti
  rw [if_neg hk]
  rcases storeBase_cases x.base k v with h | ⟨b, h⟩ | ⟨b, h⟩
  · exact ⟨x, by simp [h]⟩
  · exact ⟨{ x with base := b }, Or.inl (by simp [h])⟩
  · exact ⟨{ x with base := b }, Or.inr (by simp [h])⟩

theorem decodeMembers_multi_fails (ms : List (GoString × JSON)) (elems : List JSON) (e : Error)
    (hall : ∀ kv ∈ ms, matchesField (lit "result") kv.1 = true → kv.2 = .arr elems)
    (hex : ∃ kv ∈ ms, matchesField (lit "result") kv.1 = true)
    (hdec : decodeResults elems = .ret (.error e))
    (x : WhisperRPCIncomingMsgMulti) (saved : Bool) :
    ∃ y, decodeMembers storeMulti ms x saved = .ret (y, some e) := by
  induction ms generalizing x saved with
  | nil =>
    obtain ⟨kv, hkv, _⟩ := hex
    simp at hkv
  | cons kv rest ih =>
    obtain ⟨k, v⟩ := kv
    by_cases hk : matchesField (lit "result") k = true
    · have hv : v = .arr elems := hall (k, v) (List.mem_cons_self _ _) hk
      subst hv
      have hst : storeMulti x k (.arr elems) = .fail e := by
        simp [storeMulti, hk, hdec]
      exact ⟨x, by simp [decodeMembers, hst]⟩
    · have hrest : ∀ kv ∈ rest, matchesField (lit "result") kv.1 = true → kv.2 = .arr elems :=
        fun kv hkv => hall kv (List.mem_cons_of_mem _ hkv)
      have hex2 : ∃ kv ∈ rest, matchesField (lit "result") kv.1 = true := by
        obtain ⟨kv, hkv, hm⟩ := hex
        rcases List.mem_cons.mp hkv with rfl | hin
        · exact absurd hm hk
        · exact ⟨kv, hin, hm⟩
      obtain ⟨y, hy | hy⟩ := storeMulti_not_result x k v hk
      · obtain ⟨z, hz⟩ := ih hrest hex2 y saved
        exact ⟨z, by simp [decodeMembers, hy, hz]⟩
      · obtain ⟨z, hz⟩ := ih hrest hex2 y true
        exact ⟨z, by simp [decodeMembers, hy, hz]⟩

theorem unmarshalSingleBool_fails_on_arr (ms : List (GoString × JSON)) (elems : List JSON)
    (h : resultValues ms = [.arr elems]) :
    ∃ m, unmarshalSingleBool (some (.obj ms)) = .ret (m, some Error.jsonType) := by
  obtain ⟨_, kv, hkv, hk, hv⟩ := resultValues_single ms _ h
  obtain ⟨a1, e, h1, _, h3⟩ := decodeMembers_benign storeSingleBool ms
    (fun kv _ a => storeSingleBool_benign a kv.1 kv.2) ⟨none, false⟩ false
  have he : e = some Error.jsonType := by
    apply h3
    refine ⟨kv, hkv, fun a => ?_⟩
    simp [storeSingleBool, hk, hv, storeBool, Store.isMismatch]
  exact ⟨a1, by simp [unmarshalSingleBool, unmarshalStruct, h1, he]⟩

theorem unmarshalSingleStr_fails_on_arr (ms : List (GoString × JSON)) (elems : List JSON)
    (h : resultValues ms = [.arr elems]) :
    ∃ m, unmarshalSingleStr (some (.obj ms)) = .ret (m, some Error.jsonType) := by
  obtain ⟨_, kv, hkv, hk, hv⟩ := resultValues_single ms _ h
  obtain ⟨a1, e, h1, _, h3⟩ := decodeMembers_benign storeSingleStr ms
    (fun kv _ a => storeSingleStr_benign a kv.1 kv.2) ⟨none, []⟩ false
  have he : e = some Error.jsonType := by
    apply h3
    refine ⟨kv, hkv, fun a => ?_⟩
    simp [storeSingleStr, hk, hv, storeString, Store.isMismatch]
  exact ⟨a1, by simp [unmarshalSingleStr, unmarshalStruct, h1, he]⟩

theorem unmarshalGeneric_ret (ms : List (GoString × JSON)) :
    ∃ g e, unmarshalGeneric (some (.obj ms)) = .ret (g, e) := by
  obtain ⟨a1, e, h1, _, _⟩ := decodeMembers_benign storeGeneric ms
    (fun kv _ a => storeGeneric_benign a kv.1 kv.2) ⟨[], [], none⟩ false
  exact ⟨a1, e, by simp [unmarshalGeneric, unmarshalStruct, h1]⟩

theorem storeGeneric_set_of_fit (g : WhisperRPCMsg) (k : GoString) (v : JSON)
    (hbase : (matchesField (lit "jsonrpc") k = true ∨ matchesField (lit "id") k = true) →
      (∃ s, v = .str s) ∨ v = .null)
    (hres : matchesField (lit "result") k = true → numbersFit v = true) :
    ∃ g1, storeGeneric g k v = .set g1 := by
  by_cases hk : matchesField (lit "result") k = true
  · exact storeGeneric_result_fit g k v hk (hres hk)
  · unfold storeGeneric
    by_cases hj : matchesField (lit "jsonrpc") k = true
    · obtain ⟨s, hs⟩ := storeString_text g.JsonRPC v (hbase (Or.inl hj))
      rw [if_pos hj, hs]
      exact ⟨{ g with JsonRPC := s }, rfl⟩
    · rw [if_neg hj]
      by_cases hi : matchesField (lit "id") k = true
      · obtain ⟨s, hs⟩ := storeString_text g.Id v (hbase (Or.inr hi))
        rw [if_pos hi, hs]
        exact ⟨{ g with Id := s }, rfl⟩
      · rw [if_neg hi, if_neg hk]
        exact ⟨g, rfl⟩

theorem decodeMembers_generic_ok (ms : List (GoString × JSON))
    (hbase : ∀ kv ∈ ms, (matchesField (lit "jsonrpc") kv.1 = true ∨
      matchesField (lit "id") kv.1 = true) → (∃ s, kv.2 = .str s) ∨ kv.2 = .null)
    (hres : ∀ kv ∈ ms, matchesField (lit "result") kv.1 = true → numbersFit kv.2 = true)
    (g : WhisperRPCMsg) :
    ∃ g1, decodeMembers storeGeneric ms g false = .ret (g1, none) := by
  induction ms generalizing g with
  | nil => exact ⟨g, by simp [decodeMembers]⟩
  | cons kv rest ih =>
    obtain ⟨k, v⟩ := kv
    obtain ⟨g2, hg2⟩ := storeGeneric_set_of_fit g k v
      (hbase (k, v) (List.mem_cons_self _ _)) (hres (k, v) (List.mem_cons_self _ _))
    obtain ⟨g1, hg1⟩ := ih (fun kv hkv => hbase kv (List.mem_cons_of_mem _ hkv))
      (fun kv hkv => hres kv (List.mem_cons_of_mem _ hkv)) g2
    exact ⟨g1, by simp [decodeMembers, hg2, hg1]⟩

theorem unmarshalGeneric_fails_on_unfit (ms : List (GoString × JSON)) (v : JSON)
    (h : resultValues ms = [v]) (hfit : numbersFit v = false) :
    ∃ g, unmarshalGeneric (some (.obj ms)) = .ret (g, some Error.jsonType) := by
  obtain ⟨_, kv, hkv, hk, hv⟩ := resultValues_single ms _ h
  obtain ⟨a1, e, h1, _, h3⟩ := decodeMembers_benign storeGeneric ms
    (fun kv _ a => storeGeneric_benign a kv.1 kv.2) ⟨[], [], none⟩ false
  have he : e = some Error.jsonType := by
    apply h3
    refine ⟨kv, hkv, fun a => ?_⟩
    rw [storeGeneric_result_unfit a kv.1 kv.2 hk (by rw [hv]; exact hfit)]
    trivial
  exact ⟨a1, by simp [unmarshalGeneric, unmarshalStruct, h1, he]⟩

/-! ## C6: payload decode -/

/-- C6, as amended. A Result whose payload field is `0x1234` decodes to the bytes
0x12, 0x34 with the other fields unchanged. When the `result` array of a response
holds a Result with a malformed hex payload (after elements that decode),
`UnmarshalJSON` fails on it and with it the MultiResult decode of the whole response;
`WhisperSend` then returns no MultiResult, SingleBool or SingleString message: it
returns the Generic message without error, or its deserializing error. It is the
Generic message whenever every `jsonrpc` and `id` member is a string or null and every
number literal of the `result` array converts to a `float64`, and it is the error
whenever a number literal of the array does not. -/
theorem payload_decode (server : Server) (calls : List Call) (method : Method)
    (params : List Value) (members : List (GoString × JSON)) (good rest : List JSON)
    (bad : JSON) (t : TResult)
    (hm : marshalsList params = true)
    (hreply : server calls method params = .response 200 (.content (some (.obj members))))
    (hres : resultValues members = [.arr (good ++ bad :: rest)])
    (hgood : ∀ g ∈ good, ∃ r, Result.UnmarshalJSON g = .ret (.ok r))
    (hbad : unmarshalTResult bad = .ret (some t, none))
    (hlen : 2 ≤ t.Payload.length)
    (hmal : (t.Payload.drop 2).length % 2 = 1 ∨
      ∃ c ∈ t.Payload.drop 2, fromHexChar c = none) :
    (∀ data u, unmarshalTResult data = .ret (some u, none) → u.Payload = lit "0x1234" →
      Result.UnmarshalJSON data
        = .ret (.ok ⟨u.Hash, u.Ttl, u.Sent, u.From, u.To, [0x12, 0x34]⟩)) ∧
    Result.UnmarshalJSON bad = .ret (.error Error.hexDecode) ∧
    (∃ m, unmarshalMulti (some (.obj members)) = .ret (m, some Error.hexDecode)) ∧
    ((∃ g, (WhisperSend server calls method params).1 = .ret (some (.generic g), none)) ∨
      (WhisperSend server calls method params).1 = .ret (none, some Error.deserialize)) ∧
    ((∀ kv ∈ members, (matchesField (lit "jsonrpc") kv.1 = true ∨
        matchesField (lit "id") kv.1 = true) → (∃ s, kv.2 = .str s) ∨ kv.2 = .null) →
      numbersFit (.arr (good ++ bad :: rest)) = true →
      ∃ g, (WhisperSend server calls method params).1 = .ret (some (.generic g), none)) ∧
    (numbersFit (.arr (good ++ bad :: rest)) = false →
      (WhisperSend server calls method params).1 = .ret (none, some Error.deserialize)) := by
  have hbadE := UnmarshalJSON_malformed bad t hbad hlen hmal
  obtain ⟨hall, hex⟩ := resultValues_single members _ hres
  obtain ⟨m, hmulti⟩ := decodeMembers_multi_fails members _ Error.hexDecode hall
    (by obtain ⟨kv, h1, h2, _⟩ := hex; exact ⟨kv, h1, h2⟩)
    (decodeResults_error good rest bad _ hgood hbadE) ⟨none, []⟩ false
  have hmulti2 : unmarshalMulti (some (.obj members)) = .ret (m, some Error.hexDecode) := hmulti
  obtain ⟨b, hb⟩ := unmarshalSingleBool_fails_on_arr members _ hres
  obtain ⟨s, hs⟩ := unmarshalSingleStr_fails_on_arr members _ hres
  rw [receive_ok server calls method params _ hm hreply]
  refine ⟨?_, hbadE, ⟨m, hmulti2⟩, ?_, ?_, ?_⟩
  · intro data u hu hp
    have hx : hexDecodeString (List.drop 2 (lit "0x1234")) = some [0x12, 0x34] := by decide
    have hl : ¬ (lit "0x1234").length < 2 := by decide
    simp [Result.UnmarshalJSON, hu, hp, hx, hl]
  · obtain ⟨g, e, hg⟩ := unmarshalGeneric_ret members
    cases e with
    | none => exact Or.inl ⟨g, by simp [decodeContent, hmulti2, hb, hs, hg]⟩
    | some e => exact Or.inr (by simp [decodeContent, hmulti2, hb, hs, hg])
  · intro hstr hfit
    obtain ⟨g, hg⟩ := decodeMembers_generic_ok members hstr
      (fun kv hkv hk => by rw [hall kv hkv hk]; exact hfit) ⟨[], [], none⟩
    have hg2 : unmarshalGeneric (some (.obj members)) = .ret (g, none) := hg
    exact ⟨g, by simp [decodeContent, hmulti2, hb, hs, hg2]⟩
  · intro hunfit
    obtain ⟨g, hg⟩ := unmarshalGeneric_fails_on_unfit members _ hres hunfit
    simp [decodeContent, hmulti2, hb, hs, hg]

/-- C6, witness: `wireA` decodes to `sampleA`, `wireMalformed` fails, and a poll
answered with both is returned as a Generic message; a poll answered with
`wireMalformed` and the number `1e400` is returned as the deserializing error. -/
theorem payload_decode_witness :
    Result.UnmarshalJSON wireA = .ret (.ok sampleA) ∧
    Result.UnmarshalJSON wireMalformed = .ret (.error Error.hexDecode) ∧
    (∃ g, (WhisperSend malformedEnv.server [] Method.GET_MSGS
        (WrapParam (.str (lit "0xf1")))).1 = .ret (some (.generic g), none)) ∧
    (WhisperSend overflowServer [] Method.GET_MSGS (WrapParam (.str (lit "0xf1")))).1
      = .ret (none, some Error.deserialize) :=
  have h := payload_decode malformedEnv.server [] Method.GET_MSGS
    (WrapParam (.str (lit "0xf1")))
    [(lit "jsonrpc", .str (lit "2.0")), (lit "id", .str (lit "1")),
      (lit "result", .arr [wireA, wireMalformed])]
    [wireA] [] wireMalformed
    ⟨lit "0xbb", 50, 1000, lit "alice", lit "bob", lit "0xZZ"⟩ rfl rfl rfl
    (fun g hg => ⟨sampleA, by rw [List.mem_singleton.mp hg]; rfl⟩) rfl (by decide)
    (Or.inr ⟨0x5A, by decide, by decide⟩)
  have h2 := payload_decode overflowServer [] Method.GET_MSGS
    (WrapParam (.str (lit "0xf1")))
    [(lit "jsonrpc", .str (lit "2.0")), (lit "id", .str (lit "1")),
      (lit "result", .arr [wireMalformed, .real 1 400])]
    [] [.real 1 400] wireMalformed
    ⟨lit "0xbb", 50, 1000, lit "alice", lit "bob", lit "0xZZ"⟩ rfl rfl rfl
    (fun g hg => absurd hg (List.not_mem_nil g)) rfl (by decide)
    (Or.inr ⟨0x5A, by decide, by decide⟩)
  ⟨h.1 wireA ⟨lit "0xaa", 10, 90, lit "alice", lit "bob", lit "0x1234"⟩ rfl rfl, h.2.1,
    h.2.2.2.2.1 (by
      intro kv hkv _
      simp only [List.mem_cons, List.mem_singleton, List.not_mem_nil, or_false] at hkv
      rcases hkv with rfl | rfl | rfl
      · exact Or.inl ⟨_, rfl⟩
      · exact Or.inl ⟨_, rfl⟩
      · rename_i hm
        exact absurd hm (by decide)) (by decide),
    h2.2.2.2.2.2 (by decide)⟩

/-- C6, counterexample: `0xZZ` is no hex text, and for the response whose `result`
array holds `wireMalformed` the transport call returns a Generic message and a nil
error. -/
theorem malformed_payload_returns_generic :
    hexDecodeString ((lit "0xZZ").drop 2) = none ∧
    (WhisperSend malformedEnv.server [] Method.GET_MSGS (WrapParam (.str (lit "0xf1")))).1
      = .ret (some (.generic ⟨lit "2.0", lit "1", some (.arr [wireA, wireMalformed])⟩), none) :=
  ⟨by decide, rfl⟩

/-! ## Lemmas on the poll loop -/

theorem marshalsList_wrap_str (fid : GoString) :
    marshalsList (WrapParam (.str fid)) = true := by
  simp [WrapParam, marshalsList, marshals]

theorem WhisperSend_poll (server : Server) (calls : List Call) (fid : GoString) :
    WhisperSend server calls Method.GET_MSGS (WrapParam (.str fid)) =
      (receive (server calls Method.GET_MSGS (WrapParam (.str fid))), calls ++ [pollCall fid]) := by
  simp [WhisperSend, marshalsList_wrap_str, pollCall]

theorem readLoop_poll_multi {σ : Type} (env : Env) (topics : Value) (readTimeoutS : Int)
    (filter : Nat → σ → List Result → List Result × σ) (fuel k : Nat)
    (filterId : GoString) (calls : List Call) (s : σ) (fid : GoString) (calls1 : List Call)
    (m : WhisperRPCIncomingMsgMulti)
    (hguard : ¬ (readTimeoutS > -1 ∧ env.now k > wrapInt64 (env.start + readTimeoutS)))
    (hfilter : (if filterId = [] then newFilter env.server calls topics
      else (.ret (filterId, none), calls)) = (.ret (fid, none), calls1))
    (hpoll : receive (env.server calls1 Method.GET_MSGS (WrapParam (.str fid)))
      = .ret (some (.multi m), none)) :
    readLoop env topics readTimeoutS filter (fuel + 1) k filterId calls s =
      if (filter k s m.Result).1.length > 0 then
        some (.ret ⟨some (filter k s m.Result).1, none, calls1 ++ [pollCall fid],
          (filter k s m.Result).2⟩)
      else readLoop env topics readTimeoutS filter fuel (k + 1) fid (calls1 ++ [pollCall fid])
        (filter k s m.Result).2 := by
  rw [readLoop, if_neg hguard, hfilter]
  simp only [WhisperSend_poll, hpoll]

theorem readLoop_poll_other {σ : Type} (env : Env) (topics : Value) (readTimeoutS : Int)
    (filter : Nat → σ → List Result → List Result × σ) (fuel k : Nat)
    (filterId : GoString) (calls : List Call) (s : σ) (fid : GoString) (calls1 : List Call)
    (msg : WhisperRPCIncomingMsg)
    (hguard : ¬ (readTimeoutS > -1 ∧ env.now k > wrapInt64 (env.start + readTimeoutS)))
    (hfilter : (if filterId = [] then newFilter env.server calls topics
      else (.ret (filterId, none), calls)) = (.ret (fid, none), calls1))
    (hpoll : receive (env.server calls1 Method.GET_MSGS (WrapParam (.str fid)))
      = .ret (some msg, none))
    (hvariant : ∀ m, msg ≠ .multi m) :
    readLoop env topics readTimeoutS filter (fuel + 1) k filterId calls s =
      some (.ret ⟨none, some Error.unexpectedMsgType, calls1 ++ [pollCall fid], s⟩) := by
  rw [readLoop, if_neg hguard, hfilter]
  simp only [WhisperSend_poll, hpoll]

theorem pollCount_append (a b : List Call) : pollCount (a ++ b) = pollCount a + pollCount b := by
  simp [pollCount, List.countP_append]

theorem pollCount_pollCall (fid : GoString) : pollCount [pollCall fid] = 1 := by
  simp [pollCount, pollCall]

theorem newFilter_pollCount (server : Server) (calls : List Call) (topics : Value) :
    pollCount (newFilter server calls topics).2 = pollCount calls := by
  unfold newFilter
  rcases MapMsgParams [(lit "topics", topics)] toHex with ⟨msg, e⟩
  cases e with
  | some err => rfl
  | none =>
    simp only []
    have h2 : pollCount (WhisperSend server calls Method.NEW_FILTER msg).2 = pollCount calls := by
      unfold WhisperSend
      split
      · simp [pollCount_append, pollCount]
      · rfl
    revert h2
    generalize WhisperSend server calls Method.NEW_FILTER msg = w
    intro h2
    rcases w with ⟨out, calls1⟩
    simp only [] at h2
    split <;> simp_all

theorem purge_empty_batch (now : GoString → Int) (h : Hashes) :
    purge now h [] = ([], purgeExpired now h) := rfl

theorem readLoop_timeout_zero (env : Env) (topics : Value)
    (hstart : inInt64 env.start)
    (hnf : ∀ calls, ∃ fid, (newFilter env.server calls topics).1 = .ret (fid, none))
    (hpoll : ∀ calls params, ∃ b,
      receive (env.server calls Method.GET_MSGS params) = .ret (some (.multi ⟨b, []⟩), none))
    (n : Nat) :
    ∀ (k : Nat) (filterId : GoString) (calls : List Call) (hashes : Hashes) (fuel : Nat),
      (∀ j, j < n → env.now (k + j) ≤ env.start) → env.start < env.now (k + n) →
      n + 1 ≤ fuel →
      ∃ out, readLoop env topics 0 (fun i h results => purge (env.purgeNow i) h results)
          fuel k filterId calls hashes = some (.ret out) ∧
        out.results = some [] ∧ out.err = none ∧ pollCount out.calls = pollCount calls + n := by
  have hw : wrapInt64 (env.start + 0) = env.start := by
    rw [add_zero]; exact wrapBits64_of_range _ hstart
  induction n with
  | zero =>
    intro k filterId calls hashes fuel _ hafter hfuel
    obtain ⟨f, rfl⟩ : ∃ f, fuel = f + 1 := ⟨fuel - 1, by omega⟩
    refine ⟨⟨some [], none, calls, hashes⟩, ?_, rfl, rfl, rfl⟩
    rw [readLoop, if_pos]
    rw [hw]
    exact ⟨by decide, by simpa using hafter⟩
  | succ n ih =>
    intro k filterId calls hashes fuel hbefore hafter hfuel
    obtain ⟨f, rfl⟩ : ∃ f, fuel = f + 1 := ⟨fuel - 1, by omega⟩
    have hguard : ¬ ((0 : Int) > -1 ∧ env.now k > wrapInt64 (env.start + 0)) := by
      rw [hw]
      have := hbefore 0 (by omega)
      simp only [add_zero] at this
      intro hc
      omega
    obtain ⟨fid, calls1, hfilter, hcount⟩ : ∃ fid calls1,
        (if filterId = [] then newFilter env.server calls topics
          else (.ret (filterId, none), calls)) = (.ret (fid, none), calls1) ∧
        pollCount calls1 = pollCount calls := by
      by_cases hf : filterId = []
      · obtain ⟨fid, hfid⟩ := hnf calls
        refine ⟨fid, (newFilter env.server calls topics).2, ?_, newFilter_pollCount _ _ _⟩
        rw [if_pos hf, ← hfid]
      · exact ⟨filterId, calls, by rw [if_neg hf], rfl⟩
    obtain ⟨b, hb⟩ := hpoll calls1 (WrapParam (.str fid))
    rw [readLoop_poll_multi env topics 0 _ f k filterId calls hashes fid calls1 _ hguard
      hfilter hb]
    simp only [purge_empty_batch, List.length_nil, gt_iff_lt, lt_self_iff_false, if_false]
    obtain ⟨out, h1, h2, h3, h4⟩ := ih (k + 1) fid (calls1 ++ [pollCall fid])
      (purgeExpired (env.purgeNow k) hashes) f
      (fun j hj => by have := hbefore (j + 1) (by omega); rwa [show k + 1 + j = k + (j + 1) by omega])
      (by rwa [show k + 1 + n = k + (n + 1) by omega]) (by omega)
    refine ⟨out, h1, h2, h3, ?_⟩
    rw [h4, pollCount_append, pollCount_pollCall, hcount]
    omega

/-! ## C7: timeout exit -/

/-- C7, as amended. With `readTimeoutS = 0`, when filter creation succeeds and every
filter-poll is answered with an empty batch, the reader polls once in every iteration
whose guard still reads the start second and returns an empty batch and a nil error in
the first iteration `n` whose guard reads a later second: after exactly `n`
filter-polls, which may be none or more than one. -/
theorem timeout_zero_exit (env : Env) (topics : Value) (duration : Int) (hashes : Hashes)
    (n : Nat)
    (hstart : inInt64 env.start)
    (hnf : ∀ calls, ∃ fid, (newFilter env.server calls topics).1 = .ret (fid, none))
    (hpoll : ∀ calls params, ∃ b,
      receive (env.server calls Method.GET_MSGS params) = .ret (some (.multi ⟨b, []⟩), none))
    (hbefore : ∀ j, j < n → env.now j ≤ env.start) (hafter : env.start < env.now n) :
    ∀ fuel, n + 1 ≤ fuel →
      ∃ out, WhisperReader env topics duration 0 fuel hashes = some (.ret out) ∧
        out.results = [] ∧ out.err = none ∧ pollCount out.calls = n := by
  intro fuel hfuel
  obtain ⟨out, h1, h2, h3, h4⟩ := readLoop_timeout_zero env topics hstart hnf hpoll n 0 [] []
    hashes fuel (fun j hj => by simpa using hbefore j hj) (by simpa using hafter) hfuel
  refine ⟨⟨[], none, out.calls, out.state⟩, ?_, rfl, rfl, ?_⟩
  · simp only [WhisperReader, read, h1, h3]
    rw [h2]
    rfl
  · simpa [pollCount] using h4

/-- C7, witness: on `slowClockEnv` the reader returns the empty batch after three
polls. -/
theorem timeout_zero_witness :
    ∃ out, WhisperReader slowClockEnv sampleTopics 1 0 4 emptyHashes = some (.ret out) ∧
      out.results = [] ∧ out.err = none ∧ pollCount out.calls = 3 :=
  timeout_zero_exit slowClockEnv sampleTopics 1 emptyHashes 3 (by decide)
    (fun _ => ⟨lit "0xf1", rfl⟩) (fun _ _ => ⟨_, rfl⟩) (by decide) (by decide) 4 (by decide)

/-- C7, counterexample: with `readTimeoutS = 0`, a clock that shows the start second
in three guards and a node that answers every poll with an empty batch, the reader
makes three filter-polls before it returns the empty batch without error. -/
theorem timeout_zero_polls_thrice :
    summary (WhisperReader slowClockEnv sampleTopics 1 0 4 emptyHashes)
      = some ([], none, [Method.NEW_FILTER, Method.GET_MSGS, Method.GET_MSGS, Method.GET_MSGS]) := by
  decide

theorem purgeExpired_keeps_none (now : GoString → Int) (h : Hashes) (k : GoString)
    (hk : h k = none) : purgeExpired now h k = none := by
  simp [purgeExpired, hk]

theorem filterIf_known_all_unseen (batch : List Result) (h : Hashes)
    (hunseen : ∀ r ∈ batch, h r.Hash = none)
    (hd : batch.Pairwise (fun a b => a.Hash ≠ b.Hash)) :
    (filterIf batch [filterKnownHashFn] h).1 = batch := by
  induction batch generalizing h with
  | nil => rfl
  | cons r rest ih =>
    rw [filterIf_known_cons]
    have hr : h r.Hash = none := hunseen r (List.mem_cons_self _ _)
    rw [List.pairwise_cons] at hd
    simp only [hr, Option.isSome_none, Bool.false_eq_true, if_false]
    congr 1
    apply ih _ _ hd.2
    intro q hq
    have hne : ¬ q.Hash = r.Hash := fun e => hd.1 q hq e.symm
    simp [addHash, mapSet, hne, hunseen q (List.mem_cons_of_mem _ hq)]

theorem readLoop_blocking (env : Env) (topics : Value) (N : Nat) (fid : GoString)
    (batch : List Result) (hfid : fid ≠ [])
    (hempty : ∀ calls, pollCount calls < N → ∃ b,
      receive (env.server calls Method.GET_MSGS (WrapParam (.str fid)))
        = .ret (some (.multi ⟨b, []⟩), none))
    (hbatch : ∀ calls, pollCount calls = N → ∃ b,
      receive (env.server calls Method.GET_MSGS (WrapParam (.str fid)))
        = .ret (some (.multi ⟨b, batch⟩), none))
    (hne : batch ≠ [])
    (hd : batch.Pairwise (fun a b => a.Hash ≠ b.Hash)) (n : Nat) :
    ∀ (k : Nat) (filterId : GoString) (calls calls1 : List Call) (hashes : Hashes)
      (fuel : Nat),
      (if filterId = [] then newFilter env.server calls topics
        else (.ret (filterId, none), calls)) = (.ret (fid, none), calls1) →
      pollCount calls1 + n = N →
      (∀ r ∈ batch, hashes r.Hash = none) →
      (fuel ≤ n → readLoop env topics (-1) (fun i h results => purge (env.purgeNow i) h results)
          fuel k filterId calls hashes = none) ∧
      (n + 1 ≤ fuel →
        ∃ out, readLoop env topics (-1) (fun i h results => purge (env.purgeNow i) h results)
            fuel k filterId calls hashes = some (.ret out) ∧
          out.results = some batch ∧ out.err = none ∧
          out.calls = calls1 ++ List.replicate (n + 1) (pollCall fid)) := by
  have hguard : ∀ k, ¬ ((-1 : Int) > -1 ∧ env.now k > wrapInt64 (env.start + -1)) := by
    intro k hc
    exact absurd hc.1 (by decide)
  induction n with
  | zero =>
    intro k filterId calls calls1 hashes fuel hfilter hcount hunseen
    constructor
    · intro hf
      obtain rfl : fuel = 0 := by omega
      rfl
    · intro hf
      obtain ⟨f, rfl⟩ : ∃ f, fuel = f + 1 := ⟨fuel - 1, by omega⟩
      obtain ⟨b, hb⟩ := hbatch calls1 (by omega)
      rw [readLoop_poll_multi env topics (-1) _ f k filterId calls hashes fid calls1 _
        (hguard k) hfilter hb]
      have hkeep : (purge (env.purgeNow k) hashes batch).1 = batch := by
        unfold purge
        exact filterIf_known_all_unseen batch _
          (fun r hr => purgeExpired_keeps_none _ _ _ (hunseen r hr)) hd
      have hlen : (purge (env.purgeNow k) hashes batch).1.length > 0 := by
        rw [hkeep]
        exact List.length_pos.mpr hne
      simp only [hlen, if_true]
      exact ⟨_, rfl, by simp [hkeep], rfl, by simp⟩
  | succ n ih =>
    intro k filterId calls calls1 hashes fuel hfilter hcount hunseen
    obtain ⟨b, hb⟩ := hempty calls1 (by omega)
    have hnext : (if fid = [] then newFilter env.server (calls1 ++ [pollCall fid]) topics
        else (.ret (fid, none), calls1 ++ [pollCall fid]))
          = (.ret (fid, none), calls1 ++ [pollCall fid]) := by
      rw [if_neg hfid]
    have hc2 : pollCount (calls1 ++ [pollCall fid]) + n = N := by
      rw [pollCount_append, pollCount_pollCall]; omega
    have hun2 : ∀ r ∈ batch, purgeExpired (env.purgeNow k) hashes r.Hash = none :=
      fun r hr => purgeExpired_keeps_none _ _ _ (hunseen r hr)
    have step : ∀ f, readLoop env topics (-1)
        (fun i h results => purge (env.purgeNow i) h results) (f + 1) k filterId calls hashes
        = readLoop env topics (-1) (fun i h results => purge (env.purgeNow i) h results) f
          (k + 1) fid (calls1 ++ [pollCall fid]) (purgeExpired (env.purgeNow k) hashes) := by
      intro f
      rw [readLoop_poll_multi env topics (-1) _ f k filterId calls hashes fid calls1 _
        (hguard k) hfilter hb]
      simp only [purge_empty_batch, List.length_nil, gt_iff_lt, lt_self_iff_false, if_false]
    constructor
    · intro hf
      cases fuel with
      | zero => rfl
      | succ f =>
        rw [step f]
        exact (ih (k + 1) fid _ _ _ f hnext hc2 hun2).1 (by omega)
    · intro hf
      obtain ⟨f, rfl⟩ : ∃ f, fuel = f + 1 := ⟨fuel - 1, by omega⟩
      rw [step f]
      obtain ⟨out, h1, h2, h3, h4⟩ := (ih (k + 1) fid _ _ _ f hnext hc2 hun2).2 (by omega)
      refine ⟨out, h1, h2, h3, ?_⟩
      rw [h4, List.append_assoc]
      rfl

/-! ## C8: blocking mode -/

/-- C8, as amended. With `readTimeoutS = -1`, when filter creation returns a
non-empty id and the node answers the first `N` filter-polls with an empty batch and
the next with a non-empty batch of messages whose hashes are unseen and pairwise
distinct, the loop is still running after `N` iterations, and then returns that batch
without error after one filter-create exchange followed by exactly `N + 1` filter-polls
(`N + 2` exchanges). -/
theorem blocking_mode_polls (env : Env) (topics : Value) (duration : Int)
    (hashes : Hashes) (N : Nat) (fid : GoString) (batch : List Result)
    (hfid : fid ≠ [])
    (hcreate : newFilter env.server [] topics = (.ret (fid, none), [createCall topics]))
    (hempty : ∀ calls, pollCount calls < N → ∃ b,
      receive (env.server calls Method.GET_MSGS (WrapParam (.str fid)))
        = .ret (some (.multi ⟨b, []⟩), none))
    (hbatch : ∀ calls, pollCount calls = N → ∃ b,
      receive (env.server calls Method.GET_MSGS (WrapParam (.str fid)))
        = .ret (some (.multi ⟨b, batch⟩), none))
    (hne : batch ≠ [])
    (hunseen : ∀ r ∈ batch, hashes r.Hash = none)
    (hd : batch.Pairwise (fun a b => a.Hash ≠ b.Hash)) :
    (∀ fuel, fuel ≤ N → WhisperReader env topics duration (-1) fuel hashes = none) ∧
    (∀ fuel, N + 1 ≤ fuel →
      ∃ out, WhisperReader env topics duration (-1) fuel hashes = some (.ret out) ∧
        out.results = batch ∧ out.err = none ∧
        out.calls = createCall topics :: List.replicate (N + 1) (pollCall fid) ∧
        pollCount out.calls = N + 1 ∧ out.calls.length = N + 2) := by
  have hfilter : (if ([] : GoString) = [] then newFilter env.server [] topics
      else (.ret ([], none), [])) = (.ret (fid, none), [createCall topics]) := by
    rw [if_pos rfl, hcreate]
  have hc : pollCount [createCall topics] + N = N := by
    simp [pollCount, createCall]
  have key := readLoop_blocking env topics N fid batch hfid hempty hbatch hne hd N 0 [] []
    [createCall topics] hashes
  constructor
  · intro fuel hf
    have := (key fuel hfilter hc hunseen).1 hf
    simp [WhisperReader, read, this]
  · intro fuel hf
    obtain ⟨out, h1, h2, h3, h4⟩ := (key fuel hfilter hc hunseen).2 hf
    refine ⟨⟨batch, none, out.calls, out.state⟩, ?_, rfl, rfl, ?_, ?_, ?_⟩
    · simp only [WhisperReader, read, h1, h3]
      rw [h2]
      rfl
    · simpa using h4
    · simp only [h4]
      rw [pollCount_append]
      simp [pollCount, createCall, pollCall, List.countP_replicate]
    · simp [h4]

/-- C8, witness: on `blockingEnv` (two empty polls) the reader has not returned
after two iterations and returns `sampleA` after one filter-create and three polls. -/
theorem blocking_mode_witness :
    WhisperReader blockingEnv sampleTopics 1 (-1) 2 emptyHashes = none ∧
    ∃ out, WhisperReader blockingEnv sampleTopics 1 (-1) 3 emptyHashes = some (.ret out) ∧
      out.results = [sampleA] ∧ out.err = none ∧
      out.calls = createCall sampleTopics :: List.replicate (2 + 1) (pollCall (lit "0xf1")) ∧
      pollCount out.calls = 2 + 1 ∧ out.calls.length = 2 + 2 :=
  have h := blocking_mode_polls blockingEnv sampleTopics 1 emptyHashes 2 (lit "0xf1") [sampleA]
    (by decide) rfl
    (fun calls hc => ⟨_, by
      show receive (ok200 (if pollCount calls < 2 then JSON.arr [] else JSON.arr [wireA])) = _
      rw [if_pos hc]; rfl⟩)
    (fun calls hc => ⟨_, by
      show receive (ok200 (if pollCount calls < 2 then JSON.arr [] else JSON.arr [wireA])) = _
      rw [if_neg (by omega)]; rfl⟩)
    (by decide) (by decide) (by decide)
  ⟨h.1 2 (by decide), h.2 3 (by decide)⟩

/-- C8, counterexample: for `N = 0` the reader returns the batch after two
exchanges, a filter-create and a filter-poll, not `N + 1 = 1`. -/
theorem blocking_mode_two_calls :
    summary (WhisperReader eagerEnv sampleTopics 1 (-1) 5 emptyHashes)
      = some ([sampleA], none, [Method.NEW_FILTER, Method.GET_MSGS]) := by
  decide

/-! ## C2: filter expiry -/

/-- C2, the code at the failing input: a poll answered with `"result": null` decodes
as a MultiResult with an empty batch, and the exchange that follows it is another
filter-poll, not a filter-create. -/
theorem null_result_keeps_filter :
    decodeContent (envelope .null)
      = .ret (some (.multi ⟨some ⟨lit "2.0", lit "1", none⟩, []⟩), none) ∧
    summary (WhisperReader expiredFilterEnv sampleTopics 1 (-1) 5 emptyHashes)
      = some ([sampleA], none, [Method.NEW_FILTER, Method.GET_MSGS, Method.GET_MSGS]) :=
  ⟨rfl, by decide⟩

/-! ## C10: poll classification error -/

/-- C10. When the run of a reader call reaches an iteration that passes the timeout
guard and has a filter id, and the filter-poll of that iteration is answered by a
message that is not a MultiResult, then `read` returns nil results and the error
"Unexpected msg type" with that poll as its last exchange, the closure returns an
empty batch and that error, and the map `hashes` is the one the iteration started
with. -/
theorem poll_classification_error (env : Env) (topics : Value) (duration : Int)
    (readTimeoutS : Int) (total fuel k : Nat) (filterId : GoString) (calls : List Call)
    (hashes0 hashes : Hashes) (fid : GoString) (calls1 : List Call)
    (msg : WhisperRPCIncomingMsg)
    (hreach : readLoop env topics readTimeoutS
        (fun i h results => purge (env.purgeNow i) h results) total 0 [] [] hashes0
      = readLoop env topics readTimeoutS
        (fun i h results => purge (env.purgeNow i) h results) (fuel + 1) k filterId calls hashes)
    (hguard : ¬ (readTimeoutS > -1 ∧ env.now k > wrapInt64 (env.start + readTimeoutS)))
    (hfilter : (if filterId = [] then newFilter env.server calls topics
      else (.ret (filterId, none), calls)) = (.ret (fid, none), calls1))
    (hpoll : receive (env.server calls1 Method.GET_MSGS (WrapParam (.str fid)))
      = .ret (some msg, none))
    (hvariant : ∀ m, msg ≠ .multi m) :
    read env topics duration readTimeoutS
        (fun i h results => purge (env.purgeNow i) h results) total hashes0
      = some (.ret ⟨none, some Error.unexpectedMsgType, calls1 ++ [pollCall fid], hashes⟩) ∧
    WhisperReader env topics duration readTimeoutS total hashes0
      = some (.ret ⟨[], some Error.unexpectedMsgType, calls1 ++ [pollCall fid], hashes⟩) := by
  have h := readLoop_poll_other env topics readTimeoutS
    (fun i h results => purge (env.purgeNow i) h results) fuel k filterId calls hashes fid
    calls1 msg hguard hfilter hpoll hvariant
  have hr : read env topics duration readTimeoutS
      (fun i h results => purge (env.purgeNow i) h results) total hashes0
      = some (.ret ⟨none, some Error.unexpectedMsgType, calls1 ++ [pollCall fid], hashes⟩) := by
    unfold read
    rw [hreach, h]
  exact ⟨hr, by simp only [WhisperReader, hr]⟩

/-- C10, witness: on `boolEnv` the first poll is answered with a SingleBool message
and the reader returns the error with the empty cache unchanged. -/
theorem poll_classification_witness :
    read boolEnv sampleTopics 1 (-1)
        (fun i h results => purge (boolEnv.purgeNow i) h results) 1 emptyHashes
      = some (.ret ⟨none, some Error.unexpectedMsgType,
          [createCall sampleTopics] ++ [pollCall (lit "0xf1")], emptyHashes⟩) ∧
    WhisperReader boolEnv sampleTopics 1 (-1) 1 emptyHashes
      = some (.ret ⟨[], some Error.unexpectedMsgType,
          [createCall sampleTopics] ++ [pollCall (lit "0xf1")], emptyHashes⟩) :=
  poll_classification_error boolEnv sampleTopics 1 (-1) 1 0 0 [] [] emptyHashes emptyHashes
    (lit "0xf1") [createCall sampleTopics]
    (.singleBool ⟨some ⟨lit "2.0", lit "1", none⟩, true⟩) rfl (by decide) rfl rfl
    (fun _ h => WhisperRPCIncomingMsg.noConfusion h)

/-! ## Lemmas on the transport -/

theorem decodeContent_msg_or_error (content : Option JSON)
    (msg : Option WhisperRPCIncomingMsg) (err : Option Error)
    (h : decodeContent content = .ret (msg, err)) :
    (∃ m, msg = some m ∧ err = none) ∨ (msg = none ∧ err = some Error.deserialize) := by
  unfold decodeContent at h
  split at h
  · cases h
  · simp only [Run.ret.injEq, Prod.mk.injEq] at h
    exact Or.inl ⟨_, h.1.symm, h.2.symm⟩
  · split at h
    · cases h
    · simp only [Run.ret.injEq, Prod.mk.injEq] at h
      exact Or.inl ⟨_, h.1.symm, h.2.symm⟩
    · split at h
      · cases h
      · simp only [Run.ret.injEq, Prod.mk.injEq] at h
        exact Or.inl ⟨_, h.1.symm, h.2.symm⟩
      · split at h
        · cases h
        · simp only [Run.ret.injEq, Prod.mk.injEq] at h
          exact Or.inl ⟨_, h.1.symm, h.2.symm⟩
        · simp only [Run.ret.injEq, Prod.mk.injEq] at h
          exact Or.inr ⟨h.1.symm, h.2.symm⟩

theorem receive_msg_or_error (reply : HttpReply)
    (msg : Option WhisperRPCIncomingMsg) (err : Option Error)
    (h : receive reply = .ret (msg, err)) :
    (∃ m, msg = some m ∧ err = none) ∨ (msg = none ∧ ∃ e, err = some e) := by
  unfold receive at h
  split at h
  · simp only [Run.ret.injEq, Prod.mk.injEq] at h
    exact Or.inr ⟨h.1.symm, _, h.2.symm⟩
  · split at h
    · simp only [Run.ret.injEq, Prod.mk.injEq] at h
      exact Or.inr ⟨h.1.symm, _, h.2.symm⟩
    · split at h
      · simp only [Run.ret.injEq, Prod.mk.injEq] at h
        exact Or.inr ⟨h.1.symm, _, h.2.symm⟩
      · rcases decodeContent_msg_or_error _ _ _ h with h1 | ⟨h1, h2⟩
        · exact Or.inl h1
        · exact Or.inr ⟨h1, _, h2⟩

theorem WhisperSend_msg_or_error (server : Server) (calls : List Call) (method : Method)
    (params : List Value) (msg : Option WhisperRPCIncomingMsg) (err : Option Error)
    (h : (WhisperSend server calls method params).1 = .ret (msg, err)) :
    (∃ m, msg = some m ∧ err = none) ∨ (msg = none ∧ ∃ e, err = some e) := by
  unfold WhisperSend at h
  split at h
  · exact receive_msg_or_error _ _ _ h
  · simp only [Run.ret.injEq, Prod.mk.injEq] at h
    exact Or.inr ⟨h.1.symm, _, h.2.symm⟩

/-! ## C12: non-200 status -/

/-- C12. For every status code other than 200 and every outcome of reading the body
(a body that would decode, one that would not, one whose decoding would panic, or a
failed read), `WhisperSend` returns a nil message and the error "RPC call to ethereum
instance returned non-OK status": its result does not depend on the body, which is
not decoded. -/
theorem non200_is_error (server : Server) (calls : List Call) (method : Method)
    (params : List Value) (status : Int) (body : BodyRead)
    (hm : marshalsList params = true)
    (hreply : server calls method params = .response status body)
    (hstatus : status ≠ 200) :
    WhisperSend server calls method params
      = (.ret (none, some Error.rpcStatus), calls ++ [⟨method, params⟩]) := by
  simp [WhisperSend, hm, hreply, receive, hstatus]

/-- C12, witness: a reply with status 404 and a body whose decoding would panic under
status 200 is answered with the status error. -/
theorem non200_witness :
    decodeContent (envelope (.arr [.null])) = .crash ∧
    WhisperSend (statusServer 404 (.arr [.null])) [] Method.GET_MSGS
        (WrapParam (.str (lit "0xf1")))
      = (.ret (none, some Error.rpcStatus),
          [] ++ [⟨Method.GET_MSGS, WrapParam (.str (lit "0xf1"))⟩]) :=
  ⟨rfl, non200_is_error (statusServer 404 (.arr [.null])) [] Method.GET_MSGS
    (WrapParam (.str (lit "0xf1"))) 404 (.content (envelope (.arr [.null]))) rfl rfl
    (by decide)⟩

/-! ## One iteration of the poll loop -/

theorem readLoop_step {σ : Type} (env : Env) (topics : Value) (readTimeoutS : Int)
    (filter : Nat → σ → List Result → List Result × σ) (fuel k : Nat)
    (filterId : GoString) (calls : List Call) (s : σ) (out : ReadReturn σ)
    (h : readLoop env topics readTimeoutS filter (fuel + 1) k filterId calls s
      = some (.ret out)) :
    (timedOut env readTimeoutS k ∧ out = ⟨some [], none, calls, s⟩) ∨
    (¬ timedOut env readTimeoutS k ∧ out.results = none ∧ ∃ e, out.err = some e) ∨
    (¬ timedOut env readTimeoutS k ∧ ∃ fid calls1 m,
      (if filterId = [] then newFilter env.server calls topics
        else (.ret (filterId, none), calls)) = (.ret (fid, none), calls1) ∧
      receive (env.server calls1 Method.GET_MSGS (WrapParam (.str fid)))
        = .ret (some (.multi m), none) ∧
      ((filter k s m.Result).1.length > 0 ∧
        out = ⟨some (filter k s m.Result).1, none, calls1 ++ [pollCall fid],
          (filter k s m.Result).2⟩ ∨
       ¬ (filter k s m.Result).1.length > 0 ∧
        readLoop env topics readTimeoutS filter fuel (k + 1) fid (calls1 ++ [pollCall fid])
          (filter k s m.Result).2 = some (.ret out))) := by
  by_cases hg : timedOut env readTimeoutS k
  · left
    refine ⟨hg, ?_⟩
    unfold timedOut at hg
    rw [readLoop, if_pos hg] at h
    simp only [Option.some.injEq, Run.ret.injEq] at h
    exact h.symm
  · right
    have hg2 : ¬ (readTimeoutS > -1 ∧ env.now k > wrapInt64 (env.start + readTimeoutS)) := hg
    rcases hf : (if filterId = [] then newFilter env.server calls topics
        else (.ret (filterId, none), calls)) with ⟨r, calls1⟩
    rw [readLoop, if_neg hg2, hf] at h
    cases r with
    | crash => simp at h
    | ret p =>
      obtain ⟨fid, e⟩ := p
      cases e with
      | some err =>
        simp only [Option.some.injEq, Run.ret.injEq] at h
        left
        exact ⟨hg, by rw [← h], err, by rw [← h]⟩
      | none =>
        simp only [WhisperSend_poll] at h
        rcases hr : receive (env.server calls1 Method.GET_MSGS (WrapParam (.str fid)))
          with p | _
        · obtain ⟨msg, e⟩ := p
          rw [hr] at h
          rcases receive_msg_or_error _ _ _ hr with ⟨m, rfl, rfl⟩ | ⟨rfl, e1, rfl⟩
          · cases m with
            | multi m =>
              right
              refine ⟨hg, fid, calls1, m, rfl, hr, ?_⟩
              simp only [] at h
              by_cases hl : (filter k s m.Result).1.length > 0
              · rw [if_pos hl] at h
                simp only [Option.some.injEq, Run.ret.injEq] at h
                exact Or.inl ⟨hl, h.symm⟩
              · rw [if_neg hl] at h
                exact Or.inr ⟨hl, h⟩
            | singleBool m =>
              simp only [Option.some.injEq, Run.ret.injEq] at h
              left
              exact ⟨hg, by rw [← h], _, by rw [← h]⟩
            | singleStr m =>
              simp only [Option.some.injEq, Run.ret.injEq] at h
              left
              exact ⟨hg, by rw [← h], _, by rw [← h]⟩
            | generic m =>
              simp only [Option.some.injEq, Run.ret.injEq] at h
              left
              exact ⟨hg, by rw [← h], _, by rw [← h]⟩
          · simp only [Option.some.injEq, Run.ret.injEq] at h
            left
            exact ⟨hg, by rw [← h], _, by rw [← h]⟩
        · rw [hr] at h
          simp at h

/-! ## C18: a nil message comes with an error -/

/-- C18. For every request and every reply of the node, when `WhisperSend` returns a
nil error the message it returns is non-nil, one of the four variants, and when it
returns a nil message the error is non-nil; so the result of a call is never
`(nil, nil)`, which is what the branch `returned == nil` of `read` tests after
`err != nil` has failed. -/
theorem nil_message_only_with_error (server : Server) (calls : List Call)
    (method : Method) (params : List Value) :
    (∀ msg err, (WhisperSend server calls method params).1 = .ret (msg, err) →
      err = none →
      (∃ m, msg = some (.multi m)) ∨ (∃ m, msg = some (.singleBool m)) ∨
      (∃ m, msg = some (.singleStr m)) ∨ (∃ m, msg = some (.generic m))) ∧
    (∀ msg err, (WhisperSend server calls method params).1 = .ret (msg, err) →
      msg = none → ∃ e, err = some e) ∧
    (WhisperSend server calls method params).1 ≠ .ret (none, none) := by
  refine ⟨?_, ?_, ?_⟩
  · intro msg err h he
    rcases WhisperSend_msg_or_error _ _ _ _ _ _ h with ⟨m, rfl, _⟩ | ⟨_, e, rfl⟩
    · cases m with
      | multi m => exact Or.inl ⟨m, rfl⟩
      | singleBool m => exact Or.inr (Or.inl ⟨m, rfl⟩)
      | singleStr m => exact Or.inr (Or.inr (Or.inl ⟨m, rfl⟩))
      | generic m => exact Or.inr (Or.inr (Or.inr ⟨m, rfl⟩))
    · cases he
  · intro msg err h hm
    rcases WhisperSend_msg_or_error _ _ _ _ _ _ h with ⟨m, rfl, _⟩ | ⟨_, e, rfl⟩
    · cases hm
    · exact ⟨e, rfl⟩
  · intro h
    rcases WhisperSend_msg_or_error _ _ _ _ _ _ h with ⟨m, hm, _⟩ | ⟨_, e, he⟩
    · cases hm
    · cases he

/-- C18, witness: the poll of `expiredFilterEnv` that is answered with a null result
returns a nil error and a MultiResult message, not a nil message. -/
theorem nil_message_witness :
    (∃ m, some (WhisperRPCIncomingMsg.multi ⟨some ⟨lit "2.0", lit "1", none⟩, []⟩)
        = some (.multi m)) ∨
    (∃ m, some (WhisperRPCIncomingMsg.multi ⟨some ⟨lit "2.0", lit "1", none⟩, []⟩)
        = some (.singleBool m)) ∨
    (∃ m, some (WhisperRPCIncomingMsg.multi ⟨some ⟨lit "2.0", lit "1", none⟩, []⟩)
        = some (.singleStr m)) ∨
    (∃ m, some (WhisperRPCIncomingMsg.multi ⟨some ⟨lit "2.0", lit "1", none⟩, []⟩)
        = some (.generic m)) :=
  (nil_message_only_with_error expiredFilterEnv.server [] Method.GET_MSGS
    (WrapParam (.str (lit "0xf1")))).1 _ none rfl rfl

/-! ## C11: filter creation -/

theorem newFilter_cases (server : Server) (calls : List Call) (topics : Value) :
    (∀ err, (MapMsgParams [(lit "topics", topics)] toHex).2 = some err →
      newFilter server calls topics = (.ret ([], some err), calls)) ∧
    (∀ out calls1, (MapMsgParams [(lit "topics", topics)] toHex).2 = none →
      WhisperSend server calls Method.NEW_FILTER
        (MapMsgParams [(lit "topics", topics)] toHex).1 = (out, calls1) →
      (∀ m, out = .ret (some (.singleStr m), none) →
        newFilter server calls topics = (.ret (m.Result, none), calls1)) ∧
      (∀ msg err, out = .ret (msg, some err) →
        newFilter server calls topics = (.ret ([], some err), calls1)) ∧
      (∀ msg, out = .ret (msg, none) → (∀ m, msg ≠ some (.singleStr m)) →
        newFilter server calls topics
          = (.ret ([], some Error.unexpectedMsgType), calls1)) ∧
      (out = .crash → newFilter server calls topics = (.crash, calls1))) := by
  constructor
  · intro err he
    unfold newFilter
    rcases hmp : MapMsgParams [(lit "topics", topics)] toHex with ⟨msg, e⟩
    rw [hmp] at he
    simp only [] at he
    subst he
    rfl
  · intro out calls1 he hw
    unfold newFilter
    rcases hmp : MapMsgParams [(lit "topics", topics)] toHex with ⟨msg, e⟩
    rw [hmp] at he hw
    simp only [] at he hw
    subst he
    simp only [hw]
    refine ⟨?_, ?_, ?_, ?_⟩
    · rintro m rfl
      rfl
    · rintro msg err rfl
      cases msg with
      | none => rfl
      | some m => cases m <;> rfl
    · rintro msg rfl hne
      cases msg with
      | none => rfl
      | some m =>
        cases m with
        | singleStr m => exact absurd rfl (hne m)
        | multi m => rfl
        | singleBool m => rfl
        | generic m => rfl
    · rintro rfl
      rfl

theorem newFilter_ok_inv (server : Server) (calls : List Call) (topics : Value)
    (id : GoString) (calls1 : List Call)
    (h : newFilter server calls topics = (.ret (id, none), calls1)) :
    (MapMsgParams [(lit "topics", topics)] toHex).2 = none ∧
    ∃ m, WhisperSend server calls Method.NEW_FILTER
        (MapMsgParams [(lit "topics", topics)] toHex).1
          = (.ret (some (.singleStr m), none), calls1) ∧ id = m.Result := by
  obtain ⟨h1, h2⟩ := newFilter_cases server calls topics
  cases he : (MapMsgParams [(lit "topics", topics)] toHex).2 with
  | some err =>
    rw [h1 err he] at h
    simp at h
  | none =>
    refine ⟨rfl, ?_⟩
    rcases hw : WhisperSend server calls Method.NEW_FILTER
      (MapMsgParams [(lit "topics", topics)] toHex).1 with ⟨out, c1⟩
    obtain ⟨k1, k2, k3, k4⟩ := h2 out c1 he hw
    cases out with
    | crash =>
      rw [k4 rfl] at h
      simp at h
    | ret p =>
      obtain ⟨msg, e⟩ := p
      cases e with
      | some err =>
        rw [k2 msg err rfl] at h
        simp at h
      | none =>
        by_cases hs : ∃ m, msg = some (.singleStr m)
        · obtain ⟨m, rfl⟩ := hs
          rw [k1 m rfl] at h
          simp only [Prod.mk.injEq, Run.ret.injEq, and_true] at h
          exact ⟨m, by rw [h.2], h.1.symm⟩
        · rw [k3 msg rfl (fun m hm => hs ⟨m, hm⟩)] at h
          simp at h

theorem newFilter_error_id (server : Server) (calls : List Call) (topics : Value)
    (id : GoString) (err : Error) (calls1 : List Call)
    (h : newFilter server calls topics = (.ret (id, some err), calls1)) : id = [] := by
  obtain ⟨h1, h2⟩ := newFilter_cases server calls topics
  cases he : (MapMsgParams [(lit "topics", topics)] toHex).2 with
  | some e =>
    rw [h1 e he] at h
    simp only [Prod.mk.injEq, Run.ret.injEq] at h
    exact h.1.1.symm
  | none =>
    rcases hw : WhisperSend server calls Method.NEW_FILTER
      (MapMsgParams [(lit "topics", topics)] toHex).1 with ⟨out, c1⟩
    obtain ⟨k1, k2, k3, k4⟩ := h2 out c1 he hw
    cases out with
    | crash =>
      rw [k4 rfl] at h
      simp at h
    | ret p =>
      obtain ⟨msg, e⟩ := p
      cases e with
      | some e2 =>
        rw [k2 msg e2 rfl] at h
        simp only [Prod.mk.injEq, Run.ret.injEq] at h
        exact h.1.1.symm
      | none =>
        by_cases hs : ∃ m, msg = some (.singleStr m)
        · obtain ⟨m, rfl⟩ := hs
          rw [k1 m rfl] at h
          simp at h
        · rw [k3 msg rfl (fun m hm => hs ⟨m, hm⟩)] at h
          simp only [Prod.mk.injEq, Run.ret.injEq] at h
          exact h.1.1.symm

/-- C11. `newFilter` returns the `Result` string of the reply as the filter id, with
a nil error, exactly when `WhisperSend` returns a SingleString message. When the
parameters do not encode it returns the encoding error without any exchange; when
`WhisperSend` returns an error it returns that error; for a message of another variant
it returns "Unexpected msg type"; the id it returns with an error is empty. An
iteration of `read` that has no filter id and gets an error from `newFilter` returns
nil results and that error, and makes no filter-poll. -/
theorem filter_creation {σ : Type} (env : Env) (topics : Value) (calls : List Call) :
    (∀ err, (MapMsgParams [(lit "topics", topics)] toHex).2 = some err →
      newFilter env.server calls topics = (.ret ([], some err), calls)) ∧
    (∀ out calls1, (MapMsgParams [(lit "topics", topics)] toHex).2 = none →
      WhisperSend env.server calls Method.NEW_FILTER
        (MapMsgParams [(lit "topics", topics)] toHex).1 = (out, calls1) →
      (∀ m, out = .ret (some (.singleStr m), none) →
        newFilter env.server calls topics = (.ret (m.Result, none), calls1)) ∧
      (∀ msg err, out = .ret (msg, some err) →
        newFilter env.server calls topics = (.ret ([], some err), calls1)) ∧
      (∀ msg, out = .ret (msg, none) → (∀ m, msg ≠ some (.singleStr m)) →
        newFilter env.server calls topics
          = (.ret ([], some Error.unexpectedMsgType), calls1))) ∧
    (∀ id calls1, newFilter env.server calls topics = (.ret (id, none), calls1) →
      ∃ m, WhisperSend env.server calls Method.NEW_FILTER
          (MapMsgParams [(lit "topics", topics)] toHex).1
            = (.ret (some (.singleStr m), none), calls1) ∧ id = m.Result) ∧
    (∀ id err calls1, newFilter env.server calls topics = (.ret (id, some err), calls1) →
      id = [] ∧ pollCount calls1 = pollCount calls ∧
      ∀ (readTimeoutS : Int) (filter : Nat → σ → List Result → List Result × σ)
        (fuel k : Nat) (s : σ), ¬ timedOut env readTimeoutS k →
        readLoop env topics readTimeoutS filter (fuel + 1) k [] calls s
          = some (.ret ⟨none, some err, calls1, s⟩)) := by
  obtain ⟨h1, h2⟩ := newFilter_cases env.server calls topics
  refine ⟨h1, ?_, ?_, ?_⟩
  · intro out calls1 he hw
    obtain ⟨k1, k2, k3, _⟩ := h2 out calls1 he hw
    exact ⟨k1, k2, k3⟩
  · intro id calls1 h
    exact (newFilter_ok_inv env.server calls topics id calls1 h).2
  · intro id err calls1 h
    refine ⟨newFilter_error_id env.server calls topics id err calls1 h, ?_, ?_⟩
    · have := newFilter_pollCount env.server calls topics
      rw [h] at this
      exact this
    · intro readTimeoutS filter fuel k s hg
      have hg2 : ¬ (readTimeoutS > -1 ∧ env.now k > wrapInt64 (env.start + readTimeoutS)) :=
        hg
      rw [readLoop, if_neg hg2, if_pos rfl, h]

/-- C11, witness: on `refusingEnv` filter-create is answered with a SingleBool
message; `newFilter` returns the empty id and "Unexpected msg type", and `read`
returns that error after the filter-create exchange alone. -/
theorem filter_creation_witness :
    ([] : GoString) = [] ∧ pollCount [createCall sampleTopics] = pollCount [] ∧
    read refusingEnv sampleTopics 1 (-1)
        (fun i h results => purge (refusingEnv.purgeNow i) h results) 1 emptyHashes
      = some (.ret ⟨none, some Error.unexpectedMsgType, [createCall sampleTopics],
          emptyHashes⟩) :=
  have h := (filter_creation refusingEnv sampleTopics []).2.2.2 []
    Error.unexpectedMsgType [createCall sampleTopics] rfl
  ⟨h.1, h.2.1, h.2.2 (-1) _ 0 0 emptyHashes (by decide)⟩

/-! ## C13: order preservation -/

theorem filterIf_sublist {σ : Type} (fns : List (ResultFilter σ)) (results : List Result)
    (s : σ) : (filterIf results fns s).1.Sublist results := by
  unfold filterIf
  induction results generalizing s with
  | nil => simp [filterIfLoop]
  | cons r rest ih =>
    rcases h : excludedBy fns s r with ⟨b, s1⟩
    cases b
    · simp only [filterIfLoop, h]
      rw [filterIfLoop_acc]
      simpa using ih s1
    · simp only [filterIfLoop, h]
      exact (ih s1).cons r

theorem readLoop_return {σ : Type} (env : Env) (topics : Value) (readTimeoutS : Int)
    (filter : Nat → σ → List Result → List Result × σ)
    (hsub : ∀ k s b, (filter k s b).1.Sublist b) (fuel : Nat) :
    ∀ (k : Nat) (filterId : GoString) (calls : List Call) (s : σ) (out : ReadReturn σ),
      readLoop env topics readTimeoutS filter fuel k filterId calls s = some (.ret out) →
      out.err = none →
      ((∃ j, timedOut env readTimeoutS j) ∧ out.results = some []) ∨
      (∃ calls0 fid m res, out.results = some res ∧ res ≠ [] ∧
        out.calls = calls0 ++ [pollCall fid] ∧
        receive (env.server calls0 Method.GET_MSGS (WrapParam (.str fid)))
          = .ret (some (.multi m), none) ∧
        res.Sublist m.Result) := by
  induction fuel with
  | zero =>
    intro k filterId calls s out h
    simp [readLoop] at h
  | succ fuel ih =>
    intro k filterId calls s out h herr
    rcases readLoop_step env topics readTimeoutS filter fuel k filterId calls s out h with
      ⟨hg, rfl⟩ | ⟨_, _, e, he⟩ | ⟨_, fid, calls1, m, _, hpoll, hlast | hnext⟩
    · exact Or.inl ⟨⟨k, hg⟩, rfl⟩
    · rw [herr] at he
      cases he
    · obtain ⟨hl, rfl⟩ := hlast
      refine Or.inr ⟨calls1, fid, m, _, rfl, ?_, rfl, hpoll, hsub k s m.Result⟩
      intro hnil
      rw [hnil] at hl
      simp at hl
    · exact ih _ _ _ _ out hnext.2 herr

/-- C13. `filterIf` returns a subsequence of its input, whatever the filters. A call
of the reader closure that returns a nil error either left through the timeout exit,
with an empty batch, or left through the success exit: then the batch delivered is
non-empty and is a subsequence (same Results, same relative order) of the batch that
the node returned in the last exchange, a filter-poll. -/
theorem delivered_batch_order (env : Env) (topics : Value) (duration : Int)
    (readTimeoutS : Int) (fuel : Nat) (hashes : Hashes) (out : ReaderReturn)
    (hrun : WhisperReader env topics duration readTimeoutS fuel hashes = some (.ret out))
    (herr : out.err = none) :
    (∀ (fns : List (ResultFilter Hashes)) (results : List Result) (s : Hashes),
      (filterIf results fns s).1.Sublist results) ∧
    (((∃ j, timedOut env readTimeoutS j) ∧ out.results = []) ∨
     (out.results ≠ [] ∧ ∃ calls0 fid m,
        out.calls = calls0 ++ [pollCall fid] ∧
        receive (env.server calls0 Method.GET_MSGS (WrapParam (.str fid)))
          = .ret (some (.multi m), none) ∧
        out.results.Sublist m.Result)) := by
  refine ⟨fun fns results s => filterIf_sublist fns results s, ?_⟩
  unfold WhisperReader read at hrun
  rcases hr : readLoop env topics readTimeoutS
      (fun k h results => purge (env.purgeNow k) h results) fuel 0 [] [] hashes
    with _ | r
  · rw [hr] at hrun
    simp at hrun
  · rw [hr] at hrun
    cases r with
    | crash => simp at hrun
    | ret o =>
      simp only [] at hrun
      cases he : o.err with
      | some e =>
        rw [he] at hrun
        simp only [Option.some.injEq, Run.ret.injEq] at hrun
        rw [← hrun] at herr
        simp at herr
      | none =>
        rw [he] at hrun
        simp only [Option.some.injEq, Run.ret.injEq] at hrun
        have key := readLoop_return env topics readTimeoutS
          (fun k h results => purge (env.purgeNow k) h results)
          (fun k s b => filterIf_sublist _ b _) fuel 0 [] [] hashes o hr he
        rcases key with ⟨hj, hres⟩ | ⟨calls0, fid, m, res, hres, hne, hc, hp, hs⟩
        · left
          refine ⟨hj, ?_⟩
          rw [← hrun, hres]
          rfl
        · right
          have h1 : out.results = res := by rw [← hrun, hres]; rfl
          refine ⟨by rw [h1]; exact hne, calls0, fid, m, ?_, hp, by rw [h1]; exact hs⟩
          rw [← hrun]
          exact hc

theorem returned_of_summary (x : Option (Run ReaderReturn))
    (t : List Result × Option Error × List Method) (h : summary x = some t) :
    x = some (.ret (returned x)) := by
  cases x with
  | none => simp [summary] at h
  | some r =>
    cases r with
    | crash => simp [summary] at h
    | ret o => rfl

/-- C13, witness: on `blockingEnv` the closure returns a nil error; the property holds
of what it returned (`sampleA`, from the third poll). -/
theorem delivered_batch_witness :
    (returned (WhisperReader blockingEnv sampleTopics 1 (-1) 3 emptyHashes)).results
      = [sampleA] ∧
    (((∃ j, timedOut blockingEnv (-1) j) ∧
        (returned (WhisperReader blockingEnv sampleTopics 1 (-1) 3 emptyHashes)).results
          = []) ∨
     ((returned (WhisperReader blockingEnv sampleTopics 1 (-1) 3 emptyHashes)).results ≠ [] ∧
      ∃ calls0 fid m,
        (returned (WhisperReader blockingEnv sampleTopics 1 (-1) 3 emptyHashes)).calls
          = calls0 ++ [pollCall fid] ∧
        receive (blockingEnv.server calls0 Method.GET_MSGS (WrapParam (.str fid)))
          = .ret (some (.multi m), none) ∧
        (returned (WhisperReader blockingEnv sampleTopics 1 (-1) 3 emptyHashes)).results.Sublist
          m.Result)) :=
  ⟨by decide,
   (delivered_batch_order blockingEnv sampleTopics 1 (-1) 3 emptyHashes
    (returned (WhisperReader blockingEnv sampleTopics 1 (-1) 3 emptyHashes))
    (returned_of_summary _ ([sampleA], none,
      [Method.NEW_FILTER, Method.GET_MSGS, Method.GET_MSGS, Method.GET_MSGS]) (by decide))
    (by decide)).2⟩

/-! ## C14 and C15: parameter encoding -/

theorem singleMsgParamLoop_toHex (xs : List GoString) (acc : List Value) :
    singleMsgParamLoop toHex xs acc
      = (.list (acc ++ xs.map (fun s => Value.str (sprintfHexBytes s))), none) := by
  induction xs generalizing acc with
  | nil => simp [singleMsgParamLoop]
  | cons x rest ih =>
    simp only [singleMsgParamLoop, toHex]
    rw [ih]
    simp

theorem dictSet_fresh (encoded : List (GoString × Value)) (k : GoString) (v : Value)
    (h : k ∉ encoded.map Prod.fst) : dictSet encoded k v = encoded ++ [(k, v)] := by
  unfold dictSet
  congr 1
  rw [List.filter_eq_self]
  intro e he
  have : e.1 ≠ k := fun hk => h (hk ▸ List.mem_map_of_mem Prod.fst he)
  simpa using this

theorem mapMsgParamsLoop_flat (entries : List (GoString × List GoString))
    (encoded : List (GoString × Value))
    (hkeys : (entries.map Prod.fst).Nodup)
    (hfresh : ∀ e ∈ entries, e.1 ∉ encoded.map Prod.fst) :
    mapMsgParamsLoop toHex (entries.map (fun e => (e.1, Value.strs e.2))) encoded
      = (WrapParam (.dict (encoded ++ entries.map (fun e =>
          (e.1, Value.list (e.2.map (fun s => Value.str (sprintfHexBytes s))))))), none) := by
  induction entries generalizing encoded with
  | nil => simp [mapMsgParamsLoop]
  | cons e rest ih =>
    rw [List.map_cons, List.nodup_cons] at hkeys
    simp only [List.map_cons, mapMsgParamsLoop, SingleMsgParam, singleMsgParamLoop_toHex,
      List.nil_append]
    rw [dictSet_fresh encoded e.1 _ (hfresh e (List.mem_cons_self _ _))]
    rw [ih _ hkeys.2]
    · simp
    · intro x hx hmem
      simp only [List.map_append, List.map_cons, List.map_nil, List.mem_append,
        List.mem_singleton] at hmem
      rcases hmem with hmem | hmem
      · exact hfresh x (List.mem_cons_of_mem _ hx) hmem
      · exact hkeys.1 (hmem ▸ List.mem_map_of_mem Prod.fst hx)

/-- C14. For every map whose values are lists of strings (entries with distinct keys),
`MapMsgParams` with `toHex` returns no error and a one-element list whose element is a
map with the same keys, each mapped to the list of the hex encodings of its strings,
in order and of the same length; the hex encoding of a string is what `toHex` returns
for it. -/
theorem MapMsgParams_flat (entries : List (GoString × List GoString))
    (hkeys : (entries.map Prod.fst).Nodup) :
    MapMsgParams (entries.map (fun e => (e.1, Value.strs e.2))) toHex
      = ([Value.dict (entries.map (fun e =>
          (e.1, Value.list (e.2.map (fun s => Value.str (sprintfHexBytes s))))))], none) ∧
    (∀ s, toHex (.str s) = (.str (sprintfHexBytes s), none)) ∧
    (∀ e ∈ entries, (e.2.map (fun s => Value.str (sprintfHexBytes s))).length = e.2.length ∧
      ∀ (i : Nat) s, e.2[i]? = some s →
        (e.2.map (fun s => Value.str (sprintfHexBytes s)))[i]?
          = some (Value.str (sprintfHexBytes s))) := by
  refine ⟨?_, fun _ => rfl, ?_⟩
  · unfold MapMsgParams
    rw [mapMsgParamsLoop_flat entries [] hkeys (by simp)]
    simp [WrapParam]
  · intro e _
    refine ⟨by simp, ?_⟩
    intro i s hs
    simp [List.getElem?_map, hs]

/-- C14, witness: the test `Test_client_maps_msg_params_array`: the two topics of
the map are encoded as a list of two hex strings under the key `topics`. -/
theorem MapMsgParams_flat_witness :
    MapMsgParams [(lit "topics", Value.strs [lit "micropayment", lit "handout"])] toHex
      = ([Value.dict [(lit "topics", Value.list
          [Value.str (lit "0x6d6963726f7061796d656e74"),
           Value.str (lit "0x68616e646f7574")])]], none) ∧
    [Value.str (lit "0x6d6963726f7061796d656e74"), Value.str (lit "0x68616e646f7574")].length
      = 2 :=
  ⟨(MapMsgParams_flat [(lit "topics", [lit "micropayment", lit "handout"])]
      (by decide)).1, rfl⟩

/-- C15. For every list of lists of strings `vals`, `toHex` returns no error and a
list of lists of the same shape whose element `(i, j)` is the hex encoding of
`vals[i][j]`, and `MapMsgParams` stores it under the same key in the single wrapped
map; for the test value the outer list has 1 element and the inner list 2. -/
theorem toHex_nested (vals : List (List GoString)) (k : GoString) :
    toHex (.strss vals) = (.strss (vals.map (fun vi => vi.map sprintfHexBytes)), none) ∧
    (vals.map (fun vi => vi.map sprintfHexBytes)).length = vals.length ∧
    (∀ i : Nat, ((vals.map (fun vi => vi.map sprintfHexBytes))[i]?).map List.length
      = (vals[i]?).map List.length) ∧
    (∀ i j : Nat, ((vals.map (fun vi => vi.map sprintfHexBytes))[i]?).bind (fun vi => vi[j]?)
      = ((vals[i]?).bind (fun vi => vi[j]?)).map sprintfHexBytes) ∧
    (∀ s, toHex (.str s) = (.str (sprintfHexBytes s), none)) ∧
    MapMsgParams [(k, Value.strss vals)] toHex
      = ([Value.dict [(k, Value.strss (vals.map (fun vi => vi.map sprintfHexBytes)))]],
          none) ∧
    MapMsgParams [(lit "topics", Value.strss [[lit "micropayment", lit "handout"]])] toHex
      = ([Value.dict [(lit "topics", Value.strss
          [[lit "0x6d6963726f7061796d656e74", lit "0x68616e646f7574"]])]], none) := by
  refine ⟨rfl, by simp, ?_, ?_, fun _ => rfl, ?_, rfl⟩
  · intro i
    simp only [List.getElem?_map]
    cases vals[i]? <;> simp
  · intro i j
    simp only [List.getElem?_map]
    cases vals[i]? with
    | none => rfl
    | some vi => simp [List.getElem?_map]
  · simp [MapMsgParams, mapMsgParamsLoop, SingleMsgParam, toHex, dictSet, WrapParam]

/-! ## C16: NewConfigure -/

/-- C16. For every argument tuple `NewConfigure` returns a non-nil `Configure` whose
`Type` is `CONFIGURE` and whose other fields are the arguments, each in its own
field. -/
theorem NewConfigure_fields {URL : Type} (configureNonce : GoString) (torrentURL : URL)
    (imageHashes imageSignatures : List (GoString × GoString))
    (deployment deploymentSignature deploymentUserInfo : GoString) :
    ∃ c, NewConfigure configureNonce torrentURL imageHashes imageSignatures deployment
        deploymentSignature deploymentUserInfo = some c ∧
      c.Type_ = lit "CONFIGURE" ∧
      c.ConfigureNonce = configureNonce ∧
      c.TorrentURL = torrentURL ∧
      c.ImageHashes = imageHashes ∧
      c.ImageSignatures = imageSignatures ∧
      c.Deployment = deployment ∧
      c.DeploymentSignature = deploymentSignature ∧
      c.DeploymentUserInfo = deploymentUserInfo :=
  ⟨_, rfl, rfl, rfl, rfl, rfl, rfl, rfl, rfl, rfl⟩

/-! ## C17: duplicates inside one batch -/

theorem filterIf_known_unseen (batch : List Result) (h : Hashes) (r : Result)
    (hr : r ∈ (filterIf batch [filterKnownHashFn] h).1) : h r.Hash = none := by
  induction batch generalizing h with
  | nil => simp [filterIf_known_nil] at hr
  | cons x rest ih =>
    rw [filterIf_known_cons] at hr
    by_cases hx : (h x.Hash).isSome
    · rw [if_pos hx] at hr
      exact ih h hr
    · rw [if_neg hx] at hr
      have hxn : h x.Hash = none := by
        cases hh : h x.Hash with
        | none => rfl
        | some e => simp [hh] at hx
      simp only [List.mem_cons] at hr
      rcases hr with rfl | hr
      · exact hxn
      · have := ih _ hr
        simp only [addHash, mapSet] at this
        split at this
        · cases this
        · exact this

theorem filterIf_known_distinct (batch : List Result) (h : Hashes) :
    (filterIf batch [filterKnownHashFn] h).1.Pairwise (fun a b => a.Hash ≠ b.Hash) := by
  induction batch generalizing h with
  | nil => simp [filterIf_known_nil]
  | cons x rest ih =>
    rw [filterIf_known_cons]
    by_cases hx : (h x.Hash).isSome
    · rw [if_pos hx]
      exact ih h
    · rw [if_neg hx]
      simp only [List.pairwise_cons]
      refine ⟨?_, ih _⟩
      intro r hr heq
      have := filterIf_known_unseen rest _ r hr
      simp [addHash, mapSet, heq] at this

theorem filterIf_known_first (batch : List Result) (h : Hashes) (k : GoString)
    (hk : h k = none) :
    (filterIf batch [filterKnownHashFn] h).1.find? (fun r => r.Hash == k)
      = batch.find? (fun r => r.Hash == k) := by
  induction batch generalizing h with
  | nil => simp [filterIf_known_nil]
  | cons x rest ih =>
    rw [filterIf_known_cons]
    by_cases hx : (h x.Hash).isSome
    · rw [if_pos hx]
      have hne : (x.Hash == k) = false := by
        rw [beq_eq_false_iff_ne]
        intro he
        rw [he, hk] at hx
        simp at hx
      rw [ih h hk, List.find?_cons, hne]
    · rw [if_neg hx]
      simp only [List.find?_cons]
      cases hxk : (x.Hash == k) with
      | true => rfl
      | false =>
        simp only []
        apply ih
        have : ¬ k = x.Hash := by
          intro he
          rw [he] at hxk
          simp at hxk
        simp [addHash, mapSet, this, hk]

/-- C17. For every cache state, clock and batch, the hashes of the batch retained by
the purge-then-filter step are pairwise distinct; and for a hash that is no key of the
purged cache, the retained item with that hash is the first item of the batch that has
it, and the expiration cached for the hash is computed from the `sent` and `ttl` of
that first item. -/
theorem batch_duplicates_handled (now : GoString → Int) (hashes : Hashes)
    (batch : List Result) :
    (purge now hashes batch).1.Pairwise (fun a b => a.Hash ≠ b.Hash) ∧
    (∀ k, purgeExpired now hashes k = none →
      (purge now hashes batch).1.find? (fun r => r.Hash == k)
        = batch.find? (fun r => r.Hash == k)) ∧
    (∀ k r, purgeExpired now hashes k = none →
      batch.find? (fun q => q.Hash == k) = some r →
      r ∈ (purge now hashes batch).1 ∧
      (purge now hashes batch).2 k = some (expiration r.Sent r.Ttl)) := by
  unfold purge
  refine ⟨filterIf_known_distinct _ _, fun k hk => filterIf_known_first _ _ k hk, ?_⟩
  intro k r hk hr
  constructor
  · have := filterIf_known_first batch _ k hk
    rw [hr] at this
    exact List.mem_of_find?_eq_some this
  · rw [filterIf_known_cache, hk, hr]
    rfl

/-- C17, witness: two messages with the hash of `sampleA` and different `sent` in one
batch: the first is retained and the hash is cached until its 110, not until the 130
of the second. -/
theorem batch_duplicates_witness :
    sampleA ∈ (purge (fun _ => 100) emptyHashes [sampleA, { sampleA with Sent := 110 }]).1 ∧
    (purge (fun _ => 100) emptyHashes [sampleA, { sampleA with Sent := 110 }]).2 sampleA.Hash
      = some (expiration sampleA.Sent sampleA.Ttl) :=
  (batch_duplicates_handled (fun _ => 100) emptyHashes
    [sampleA, { sampleA with Sent := 110 }]).2.2 sampleA.Hash sampleA (by decide) (by decide)

/-! ## C19: payload round trip -/

set_option maxRecDepth 100000 in
theorem hex_byte_round_trip (b : UInt8) :
    fromHexChar (hexDigit (b >>> 4)) = some (b >>> 4) ∧
    fromHexChar (hexDigit (b &&& 0x0f)) = some (b &&& 0x0f) ∧
    ((b >>> 4) <<< 4 ||| (b &&& 0x0f)) = b := by
  cases b with
  | mk v =>
    revert v
    decide

theorem hexDecodeString_hexBytes (s : GoString) : hexDecodeString (hexBytes s) = some s := by
  induction s with
  | nil => rfl
  | cons b rest ih =>
    obtain ⟨h1, h2, h3⟩ := hex_byte_round_trip b
    simp only [hexBytes, hexDecodeString, h1, h2, ih, h3]

/-- C19. For every non-empty string `s`, `toHex` returns the marker `0x` followed by
two lower-case hex digits per byte of `s`, and the payload decoder of `Result` (drop
the first two bytes, hex-decode the rest) turns that text back into exactly `s`,
without error and without panic. -/
theorem payload_round_trip (s : GoString) (hs : s ≠ []) :
    toHex (.str s) = (.str (lit "0x" ++ hexBytes s), none) ∧
    hexDecodeString ((lit "0x" ++ hexBytes s).drop 2) = some s ∧
    (∀ data t, unmarshalTResult data = .ret (some t, none) →
      t.Payload = lit "0x" ++ hexBytes s →
      Result.UnmarshalJSON data = .ret (.ok ⟨t.Hash, t.Ttl, t.Sent, t.From, t.To, s⟩)) := by
  have hdrop : (lit "0x" ++ hexBytes s).drop 2 = hexBytes s := rfl
  refine ⟨?_, ?_, ?_⟩
  · simp [toHex, sprintfHexBytes, hs]
  · rw [hdrop, hexDecodeString_hexBytes]
  · intro data t ht hp
    have hlen : ¬ (lit "0x" ++ hexBytes s).length < 2 := by
      have : (lit "0x").length = 2 := rfl
      rw [List.length_append, this]
      omega
    simp only [Result.UnmarshalJSON, ht, hp, hlen, if_false, hdrop, hexDecodeString_hexBytes]

/-- C19, witness: the payload `hi` travels as `0x6869` and decodes back to `hi`. -/
theorem payload_round_trip_witness :
    toHex (.str (lit "hi")) = (.str (lit "0x" ++ hexBytes (lit "hi")), none) ∧
    lit "0x" ++ hexBytes (lit "hi") = lit "0x6869" ∧
    Result.UnmarshalJSON (wireWithPayload (some (lit "0x6869")))
      = .ret (.ok ⟨lit "0xaa", 10, 90, lit "alice", lit "bob", lit "hi"⟩) :=
  have h := payload_round_trip (lit "hi") (by decide)
  ⟨h.1, by decide,
    h.2.2 (wireWithPayload (some (lit "0x6869")))
      ⟨lit "0xaa", 10, 90, lit "alice", lit "bob", lit "0x6869"⟩ rfl (by decide)⟩

/-! ## C20: payloads shorter than the marker -/

/-- C20, the code at the failing inputs: for a Result object without a payload
member, with the payload `""` and with the payload `"0"`, the slice expression
`t.Payload[2:]` of `UnmarshalJSON` is out of range and the decoder panics; it returns
neither a Result nor an error, and the decoding of the response panics with it. -/
theorem short_payload_panics :
    Result.UnmarshalJSON (wireWithPayload none) = .crash ∧
    Result.UnmarshalJSON (wireWithPayload (some (lit ""))) = .crash ∧
    Result.UnmarshalJSON (wireWithPayload (some (lit "0"))) = .crash ∧
    decodeContent (envelope (.arr [wireWithPayload (some (lit "0"))])) = .crash :=
  ⟨rfl, rfl, rfl, rfl⟩

/-! ## C21: negative read timeouts -/

theorem readLoop_negative_timeout {σ : Type} (env : Env) (topics : Value)
    (readTimeoutS : Int) (hneg : readTimeoutS ≤ -1)
    (filter : Nat → σ → List Result → List Result × σ) (fuel : Nat) :
    ∀ (k : Nat) (filterId : GoString) (calls : List Call) (s : σ) (out : ReadReturn σ),
      readLoop env topics readTimeoutS filter fuel k filterId calls s = some (.ret out) →
      (out.err = none ∧ ∃ (j : Nat) (t : σ) (m : WhisperRPCIncomingMsgMulti), out.results = some (filter j t m.Result).1 ∧
        (filter j t m.Result).1 ≠ []) ∨
      (out.results = none ∧ ∃ e, out.err = some e) := by
  have hnt : ∀ j, ¬ timedOut env readTimeoutS j := by
    intro j h
    have := h.1
    omega
  induction fuel with
  | zero =>
    intro k filterId calls s out h
    simp [readLoop] at h
  | succ fuel ih =>
    intro k filterId calls s out h
    rcases readLoop_step env topics readTimeoutS filter fuel k filterId calls s out h with
      ⟨hg, _⟩ | ⟨_, hres, e, he⟩ | ⟨_, fid, calls1, m, _, _, hlast | hnext⟩
    · exact absurd hg (hnt k)
    · exact Or.inr ⟨hres, e, he⟩
    · obtain ⟨hl, rfl⟩ := hlast
      refine Or.inl ⟨rfl, k, s, m, rfl, ?_⟩
      intro hnil
      rw [hnil] at hl
      simp at hl
    · exact ih _ _ _ _ out hnext.2

/-- C21. For every `readTimeoutS ≤ -1` and every clock the timeout guard of `read` is
false in every iteration, so `read` never returns through the timeout exit: whenever
it returns, it returns either a nil error with a non-empty batch that came out of the
filter closure, or nil results with an error; and the reader closure returns either a
non-empty batch with a nil error or an empty batch with an error. -/
theorem negative_timeout_never_expires {σ : Type} (env : Env) (topics : Value)
    (duration : Int) (readTimeoutS : Int) (hneg : readTimeoutS ≤ -1) :
    (∀ k, ¬ timedOut env readTimeoutS k) ∧
    (∀ (filter : Nat → σ → List Result → List Result × σ) (fuel : Nat) (s : σ)
      (out : ReadReturn σ),
      read env topics duration readTimeoutS filter fuel s = some (.ret out) →
      (out.err = none ∧ ∃ (j : Nat) (t : σ) (m : WhisperRPCIncomingMsgMulti), out.results = some (filter j t m.Result).1 ∧
        (filter j t m.Result).1 ≠ []) ∨
      (out.results = none ∧ ∃ e, out.err = some e)) ∧
    (∀ (fuel : Nat) (hashes : Hashes) (out : ReaderReturn),
      WhisperReader env topics duration readTimeoutS fuel hashes = some (.ret out) →
      (out.err = none ∧ out.results ≠ []) ∨ (out.results = [] ∧ ∃ e, out.err = some e)) := by
  refine ⟨?_, ?_, ?_⟩
  · intro k h
    have := h.1
    omega
  · intro filter fuel s out h
    exact readLoop_negative_timeout env topics readTimeoutS hneg filter fuel 0 [] [] s out h
  · intro fuel hashes out hrun
    unfold WhisperReader read at hrun
    rcases hr : readLoop env topics readTimeoutS
        (fun k h results => purge (env.purgeNow k) h results) fuel 0 [] [] hashes
      with _ | r
    · rw [hr] at hrun
      simp at hrun
    · rw [hr] at hrun
      cases r with
      | crash => simp at hrun
      | ret o =>
        simp only [] at hrun
        rcases readLoop_negative_timeout env topics readTimeoutS hneg _ fuel 0 [] [] hashes o
          hr with ⟨he, j, t, m, hres, hne⟩ | ⟨_, e, he⟩
        · rw [he] at hrun
          simp only [Option.some.injEq, Run.ret.injEq] at hrun
          left
          rw [← hrun]
          refine ⟨rfl, ?_⟩
          simp only [hres, Option.getD_some]
          exact hne
        · rw [he] at hrun
          simp only [Option.some.injEq, Run.ret.injEq] at hrun
          right
          rw [← hrun]
          exact ⟨rfl, e, rfl⟩

/-- C21, witness: with `readTimeoutS = -5` on `blockingEnv`, whose clock reads 100 in
every guard (more than `start + readTimeoutS = 95`), the guard is false and the closure
returns the batch `sampleA` with a nil error. -/
theorem negative_timeout_witness :
    ¬ timedOut blockingEnv (-5) 0 ∧
    blockingEnv.now 0 > wrapInt64 (blockingEnv.start + -5) ∧
    (((returned (WhisperReader blockingEnv sampleTopics 1 (-5) 3 emptyHashes)).err = none ∧
      (returned (WhisperReader blockingEnv sampleTopics 1 (-5) 3 emptyHashes)).results ≠ []) ∨
     ((returned (WhisperReader blockingEnv sampleTopics 1 (-5) 3 emptyHashes)).results = [] ∧
      ∃ e, (returned (WhisperReader blockingEnv sampleTopics 1 (-5) 3 emptyHashes)).err
        = some e)) :=
  have h := @negative_timeout_never_expires Hashes blockingEnv sampleTopics 1 (-5)
    (by decide)
  ⟨h.1 0, by decide,
    h.2.2 3 emptyHashes _ (returned_of_summary _ ([sampleA], none,
      [Method.NEW_FILTER, Method.GET_MSGS, Method.GET_MSGS, Method.GET_MSGS]) (by decide))⟩

end Whisper
